import Mathlib

/-!
# ETDK (encrypt, then delete key): a verification development

A shallow embedding of `src/include/etdk.h`, `src/src/crypto.c`, `src/src/platform.c`
and `src/src/main.c`.

Conventions of the embedding.

* A byte is a natural number; every store into a byte buffer reduces it modulo 256
  where the C code could be handed a wider value.
* A C array `uint8_t[n]` is a list of length exactly `n` (`Buf n`).
* A pointer that may be `NULL` is an `Option`.
* The library and the operating system are outside the repository.  Their answers
  are parameters: the random source is a function from the call number to a reply,
  the block cipher is a structure of two functions, and every call that can fail
  has a fault switch in a record.
* A `while` loop is a function by recursion on fuel, which the caller computes
  from the size of the data; running out of fuel is the result `none`, and the
  theorems show that it does not happen.
-/

namespace Etdk

/-! ## Constants of `etdk.h` -/

/-- AES-256 key size in bytes. -/
def AES_KEY_SIZE : Nat := 32

/-- AES block size in bytes. -/
def AES_BLOCK_SIZE : Nat := 16

/-- Operation completed successfully. -/
def ETDK_SUCCESS : Int := 0

/-- I/O error. -/
def ETDK_ERROR_IO : Int := -1

/-- Cryptographic operation failed. -/
def ETDK_ERROR_CRYPTO : Int := -2

/-- Memory allocation or locking failed. -/
def ETDK_ERROR_MEMORY : Int := -3

/-- Platform-specific operation failed. -/
def ETDK_ERROR_PLATFORM : Int := -4

/-! ## Byte buffers -/

/-- The C array `uint8_t[n]`. -/
abbrev Buf (n : Nat) := { l : List Nat // l.length = n }

/-- The array whose `n` entries all hold `c`. -/
def Buf.fill (n c : Nat) : Buf n := ⟨List.replicate n c, List.length_replicate n c⟩

/-- Overwrite the front of an array with `src`, keeping the array's size: the
entries past `src` keep their value, and what of `src` does not fit is dropped. -/
def Buf.store {n : Nat} (b : Buf n) (src : List Nat) : Buf n :=
  ⟨(src ++ b.val.drop src.length).take n, by
    have h := b.property
    simp only [List.length_take, List.length_append, List.length_drop]
    omega⟩

/-- The libc call `memset(b, c, len)` on an array of `n` bytes, for `len ≤ n`. -/
def memset {n : Nat} (b : Buf n) (c len : Nat) : Buf n :=
  b.store (List.replicate len (c % 256))

/-- The assignment `b[i] = v` through a pointer to `uint8_t`. -/
def Buf.set {n : Nat} (b : Buf n) (i v : Nat) : Buf n :=
  ⟨b.val.set i (v % 256), by simp [b.property]⟩

/-! ## The random source (OpenSSL `RAND_bytes`) -/

/-- What one call of `RAND_bytes` does.  `ret` is the value returned (1 is
success).  `bytes i` is the byte the call puts at offset `i`.  A successful call
fills the whole buffer; a failing call may still have overwritten the first
`stored` bytes. -/
structure RandReply where
  ret : Int
  bytes : Nat → Nat
  stored : Nat

/-- The random source: the reply to the call with a given number, counted from
the start of the process. -/
abbrev RandSource := Nat → RandReply

/-- The first `len` bytes a reply holds. -/
def RandReply.drawn (r : RandReply) (len : Nat) : List Nat :=
  (List.range len).map (fun i => r.bytes i % 256)

/-- The call `RAND_bytes(buf, len)`: the buffer afterwards and the value returned. -/
def RAND_bytes {n : Nat} (r : RandReply) (buf : Buf n) (len : Nat) : Buf n × Int :=
  if r.ret = 1 then (buf.store (r.drawn len), 1)
  else (buf.store (r.drawn (min r.stored len)), r.ret)

/-! ## The context, `crypto_context_t` -/

/-- The struct `crypto_context_t`: key, IV and the (unused) cipher handle, a
pointer held as a number with 0 for `NULL`. -/
structure crypto_context_t where
  key : Buf 32
  iv : Buf 16
  cipher_ctx : Nat

/-- The effect of `memset(ctx, 0, sizeof(crypto_context_t))`. -/
def crypto_context_t.zeroed : crypto_context_t :=
  { key := Buf.fill 32 0, iv := Buf.fill 16 0, cipher_ctx := 0 }

/-- The function `crypto_generate_key` of `crypto.c`: the key buffer afterwards
and the status.  The random source is consulted only when the arguments pass
the check. -/
def crypto_generate_key (r : RandReply) (key : Option (Buf 32)) (key_size : Nat) :
    Option (Buf 32) × Int :=
  match key with
  | none => (none, ETDK_ERROR_CRYPTO)
  | some k =>
    if key_size ≠ AES_KEY_SIZE then (some k, ETDK_ERROR_CRYPTO)
    else
      let (k1, rc) := RAND_bytes r k key_size
      if rc ≠ 1 then (some k1, ETDK_ERROR_CRYPTO) else (some k1, ETDK_SUCCESS)

/-- The function `crypto_init` of `crypto.c`.  `rng` is the random source and `c`
the number of `RAND_bytes` calls made so far.  Returns the context afterwards,
the status and the new call count. -/
def crypto_init (rng : RandSource) (c : Nat) (ctx : Option crypto_context_t) :
    Option crypto_context_t × Int × Nat :=
  match ctx with
  | none => (none, ETDK_ERROR_CRYPTO, c)
  | some _ =>
    let z := crypto_context_t.zeroed
    match crypto_generate_key (rng c) (some z.key) AES_KEY_SIZE with
    | (none, _) => (some z, ETDK_ERROR_CRYPTO, c)
    | (some k, rc) =>
      let z1 := { z with key := k }
      if rc ≠ ETDK_SUCCESS then (some z1, ETDK_ERROR_CRYPTO, c + 1)
      else
        let (v, rc2) := RAND_bytes (rng (c + 1)) z1.iv AES_BLOCK_SIZE
        let z2 := { z1 with iv := v }
        if rc2 ≠ 1 then (some z2, ETDK_ERROR_CRYPTO, c + 2)
        else (some z2, ETDK_SUCCESS, c + 2)

/-- The loop `for (i = 0; i < len; i++) v[i] = 0;` through a volatile pointer. -/
def volatile_zero {n : Nat} (b : Buf n) (len : Nat) : Buf n :=
  (List.range len).foldl (fun acc i => acc.set i 0) b

/-- The function `crypto_secure_wipe_key` of `crypto.c`.  `rng` and `c` are as in
`crypto_init`; the two `RAND_bytes` calls of pass 3 are made and their return
values dropped. -/
def crypto_secure_wipe_key (rng : RandSource) (c : Nat) (ctx : Option crypto_context_t) :
    Option crypto_context_t × Int × Nat :=
  match ctx with
  | none => (none, ETDK_ERROR_CRYPTO, c)
  | some x =>
    -- pass 1
    let x := { x with key := memset x.key 0x00 AES_KEY_SIZE }
    let x := { x with iv := memset x.iv 0x00 AES_BLOCK_SIZE }
    -- pass 2
    let x := { x with key := memset x.key 0xFF AES_KEY_SIZE }
    let x := { x with iv := memset x.iv 0xFF AES_BLOCK_SIZE }
    -- pass 3
    let x := { x with key := (RAND_bytes (rng c) x.key AES_KEY_SIZE).1 }
    let x := { x with iv := (RAND_bytes (rng (c + 1)) x.iv AES_BLOCK_SIZE).1 }
    -- pass 4
    let x := { x with key := memset x.key 0x00 AES_KEY_SIZE }
    let x := { x with iv := memset x.iv 0x00 AES_BLOCK_SIZE }
    -- pass 5
    let x := { x with key := volatile_zero x.key AES_KEY_SIZE }
    let x := { x with iv := volatile_zero x.iv AES_BLOCK_SIZE }
    (some x, ETDK_SUCCESS, c + 2)

/-- The function `crypto_cleanup` of `crypto.c`: the context afterwards and the
new call count of the random source. -/
def crypto_cleanup (rng : RandSource) (c : Nat) (ctx : Option crypto_context_t) :
    Option crypto_context_t × Nat :=
  match ctx with
  | none => (none, c)
  | some x =>
    let r := crypto_secure_wipe_key rng c (some x)
    (r.1.map (fun _ => crypto_context_t.zeroed), r.2.2)

/-! ## The block cipher and the EVP layer (OpenSSL, outside the repository) -/

/-- The block cipher behind `EVP_aes_256_cbc()`: for a 32-byte key, a map of
16-byte blocks (`enc`) and the map that a decrypting party applies (`dec`).
The cipher is a parameter of the embedding. -/
structure BlockCipher where
  enc : Buf 32 → Buf 16 → Buf 16
  dec : Buf 32 → Buf 16 → Buf 16

/-- Decryption undoes encryption under the same key, as it does for AES. -/
def BlockCipher.Inverts (C : BlockCipher) : Prop :=
  ∀ (k : Buf 32) (b : Buf 16), C.dec k (C.enc k b) = b

/-- Byte-wise exclusive or of two arrays. -/
def Buf.xor {n : Nat} (a b : Buf n) : Buf n :=
  ⟨List.zipWith (fun x y => x ^^^ y) a.val b.val, by
    simp [a.property, b.property]⟩

/-- The first 16 bytes of `l` as a block (zero-filled when `l` is shorter). -/
def toBlock (l : List Nat) : Buf 16 := (Buf.fill 16 0).store l

/-- The state behind an `EVP_CIPHER_CTX *` in CBC encryption: the key, the
chaining block (the IV, later the last ciphertext block) and the bytes of a
block not yet complete. -/
structure EVP_CIPHER_CTX where
  key : Buf 32
  chain : Buf 16
  buf : List Nat

/-- The call `EVP_EncryptInit_ex(cipher_ctx, EVP_aes_256_cbc(), NULL, key, iv)`. -/
def EVP_EncryptInit_ex (key : Buf 32) (iv : Buf 16) : EVP_CIPHER_CTX :=
  { key := key, chain := iv, buf := [] }

/-- CBC encryption of the first `n` blocks of `data`: the ciphertext and the
chaining block afterwards. -/
def cbc_encrypt (C : BlockCipher) (key : Buf 32) : Nat → Buf 16 → List Nat → List Nat × Buf 16
  | 0, chain, _ => ([], chain)
  | n + 1, chain, data =>
    let c := C.enc key ((toBlock data).xor chain)
    let r := cbc_encrypt C key n c (data.drop 16)
    (c.val ++ r.1, r.2)

/-- The call `EVP_EncryptUpdate(cipher_ctx, outbuf, &outlen, inbuf, inlen)` when it
succeeds: every complete block of the pending bytes followed by the input is
encrypted and returned (`outlen` is the length of the list), the rest stays
pending. -/
def EVP_EncryptUpdate (C : BlockCipher) (st : EVP_CIPHER_CTX) (inp : List Nat) :
    EVP_CIPHER_CTX × List Nat :=
  let data := st.buf ++ inp
  let n := data.length / 16
  let r := cbc_encrypt C st.key n st.chain data
  ({ st with chain := r.2, buf := data.drop (16 * n) }, r.1)

/-- The call `EVP_EncryptFinal_ex(cipher_ctx, outbuf, &outlen)` when it succeeds:
the pending bytes are filled up to a block with the pad count in every added
byte (PKCS#7) and that block is encrypted. -/
def EVP_EncryptFinal_ex (C : BlockCipher) (st : EVP_CIPHER_CTX) : List Nat :=
  let pad := 16 - st.buf.length
  (C.enc st.key ((toBlock (st.buf ++ List.replicate pad pad)).xor st.chain)).val

/-! ## Reference functions the claims compare the code with -/

/-- CBC decryption of the first `n` blocks of `data` (the inverse direction, which
the repository does not contain). -/
def cbc_decrypt (C : BlockCipher) (key : Buf 32) : Nat → Buf 16 → List Nat → List Nat
  | 0, _, _ => []
  | n + 1, chain, data =>
    let c := toBlock data
    ((C.dec key c).xor chain).val ++ cbc_decrypt C key n c (data.drop 16)

/-- Removal of standard block padding: the last byte `p` must lie in 1..16 and
the last `p` bytes must all equal `p`; they are cut off. -/
def pkcs7_unpad (l : List Nat) : Option (List Nat) :=
  match l.getLast? with
  | none => none
  | some p =>
    if 1 ≤ p ∧ p ≤ 16 ∧ p ≤ l.length ∧ l.drop (l.length - p) = List.replicate p p then
      some (l.take (l.length - p))
    else none

/-- Decryption of an encrypted file: CBC decryption of all blocks, then removal
of the padding. -/
def decrypt_file (C : BlockCipher) (key : Buf 32) (iv : Buf 16) (ct : List Nat) :
    Option (List Nat) :=
  if ct.length % 16 ≠ 0 then none
  else pkcs7_unpad (cbc_decrypt C key (ct.length / 16) iv ct)

/-- Decryption of an encrypted device: CBC decryption of all blocks, no padding
step. -/
def decrypt_device (C : BlockCipher) (key : Buf 32) (iv : Buf 16) (ct : List Nat) : List Nat :=
  cbc_decrypt C key (ct.length / 16) iv ct

/-- The ciphertext of a whole message in one piece: CBC over the message
followed by its padding. -/
def cbc_encrypt_padded (C : BlockCipher) (key : Buf 32) (iv : Buf 16) (msg : List Nat) :
    List Nat :=
  let pad := 16 - msg.length % 16
  (cbc_encrypt C key (msg.length / 16 + 1) iv (msg ++ List.replicate pad pad)).1

/-! ## Files and streams (the C library and the operating system) -/

/-- What `stat` tells of a path, as far as the program looks. -/
inductive NodeKind where
  | regular
  | block
  deriving DecidableEq, Repr

/-- A file or device: its kind and its bytes. -/
structure Node where
  kind : NodeKind
  data : List Nat
  deriving DecidableEq, Repr

/-- The file system: what each path names, if anything. -/
abbrev FS := String → Option Node

/-- The file system with `p` rebound. -/
def FS.put (fs : FS) (p : String) (n : Option Node) : FS :=
  fun q => if q = p then n else fs q

/-- The bytes of an unread stream tail that `fread(buf, 1, size, f)` returns.
Without a fault these are the next `size` bytes, or all that is left.  With the
fault `some k` the call hits a read error after `k` bytes. -/
def fread (fault : Option Nat) (size : Nat) (rest : List Nat) : List Nat :=
  match fault with
  | none => rest.take size
  | some k => rest.take (min k size)

/-- The bytes that `fwrite(buf, 1, len, f)` puts into the file: all of them, or
with the fault `some k` only the first `k`.  The value `fwrite` returns is the
length of this list. -/
def fwrite (fault : Option Nat) (data : List Nat) : List Nat :=
  match fault with
  | none => data
  | some k => data.take k

/-- The content of a file after `bytes` were written at offset `pos`: bytes in
range are replaced, bytes past the end make the file longer (a gap is filled
with zeros), and writing nothing changes nothing. -/
def pwrite (data : List Nat) (pos : Nat) (bytes : List Nat) : List Nat :=
  if bytes = [] then data
  else (data ++ List.replicate (pos - data.length) 0).take pos ++ bytes ++
    data.drop (pos + bytes.length)

/-! ## `crypto_encrypt_file` -/

/-- Fault switches for one call of `crypto_encrypt_file`: which library calls
fail.  `read i`, `update i` and `write i` are for the calls of iteration `i` of
the loop; the write after the loop has the number of iterations as its index. -/
structure FileFaults where
  open_input : Bool
  open_output : Bool
  ctx_new : Bool
  enc_init : Bool
  read : Nat → Option Nat
  update : Nat → Bool
  write : Nat → Option Nat
  final : Bool

/-- No library call fails. -/
def noFileFaults : FileFaults :=
  { open_input := false, open_output := false, ctx_new := false, enc_init := false,
    read := fun _ => none, update := fun _ => false, write := fun _ => none, final := false }

/-- How the read loop of `crypto_encrypt_file` ended. -/
structure FileLoopEnd where
  /-- Value `false`: an `EVP_EncryptUpdate` call failed and the function returns. -/
  ok : Bool
  st : EVP_CIPHER_CTX
  /-- The bytes written to the output so far. -/
  out : List Nat
  /-- The number of iterations entered. -/
  calls : Nat

/-- The loop `while ((inlen = fread(inbuf, 1, sizeof(inbuf), input)) > 0)` of
`crypto_encrypt_file`, with `bufsz` for `sizeof(inbuf)`.  Arguments: fuel, the
iteration number, the cipher state, the unread input and the output so far. -/
def encrypt_file_loop (C : BlockCipher) (flt : FileFaults) (bufsz : Nat) :
    Nat → Nat → EVP_CIPHER_CTX → List Nat → List Nat → Option FileLoopEnd
  | 0, _, _, _, _ => none
  | fuel + 1, i, st, rest, out =>
    let inbuf := fread (flt.read i) bufsz rest
    let inlen := inbuf.length
    if inlen = 0 then some { ok := true, st := st, out := out, calls := i }
    else if flt.update i then some { ok := false, st := st, out := out, calls := i }
    else
      let r := EVP_EncryptUpdate C st inbuf
      -- fwrite(outbuf, 1, outlen, output); its return value is not looked at
      let out1 := out ++ fwrite (flt.write i) r.2
      encrypt_file_loop C flt bufsz fuel (i + 1) r.1 (rest.drop inlen) out1

/-- The function `crypto_encrypt_file` of `crypto.c`: the status and the file
system afterwards. -/
def crypto_encrypt_file (C : BlockCipher) (flt : FileFaults) (fs : FS)
    (input_path output_path : Option String) (ctx : Option crypto_context_t) :
    Option (Int × FS) :=
  match input_path, output_path, ctx with
  | some inp, some outp, some x =>
    -- fopen(input_path, "rb")
    match (if flt.open_input then none else fs inp) with
    | none => some ( ETDK_ERROR_IO, fs)
    | some _ =>
      -- fopen(output_path, "wb") creates the file or cuts it to length zero
      if flt.open_output then some ( ETDK_ERROR_IO, fs)
      else
        let kind := ((fs outp).map Node.kind).getD NodeKind.regular
        let fs1 := fs.put outp (some { kind := kind, data := [] })
        if flt.ctx_new then some (ETDK_ERROR_CRYPTO, fs1)
        else if flt.enc_init then some (ETDK_ERROR_CRYPTO, fs1)
        else
          let st := EVP_EncryptInit_ex x.key x.iv
          let rest := ((fs1 inp).map Node.data).getD []
          match encrypt_file_loop C flt 4096 (rest.length + 1) 0 st rest [] with
          | none => none
          | some e =>
            if e.ok = false then
              some (ETDK_ERROR_CRYPTO, fs1.put outp (some { kind := kind, data := e.out }))
            else if flt.final then
              some (ETDK_ERROR_CRYPTO, fs1.put outp (some { kind := kind, data := e.out }))
            else
              let fin := EVP_EncryptFinal_ex C e.st
              let out := e.out ++ fwrite (flt.write e.calls) fin
              some (ETDK_SUCCESS, fs1.put outp (some { kind := kind, data := out }))
  | _, _, _ => some (ETDK_ERROR_CRYPTO, fs)

/-! ## `platform.c` (the branch for Linux and macOS) -/

/-- The function `platform_get_device_size` of `platform.c`: the status and the
size stored through the pointer.  `open_fails` says that `open` or `fstat`
fails.  A block device answers the `ioctl`, a regular file the `fstat`; both
give the number of bytes. -/
def platform_get_device_size (open_fails : Bool) (fs : FS) (device_path : Option String) :
    Int × Nat :=
  match device_path with
  | none => (ETDK_ERROR_PLATFORM, 0)
  | some p =>
    match (if open_fails then none else fs p) with
    | none => ( ETDK_ERROR_IO, 0)
    | some node => (ETDK_SUCCESS, node.data.length % 2 ^ 64)

/-- The function `platform_is_device` of `platform.c`.  `stat_fails` says that
`stat` fails on a path that exists. -/
def platform_is_device (stat_fails : Bool) (fs : FS) (path : Option String) : Int :=
  match path with
  | none => 0
  | some p =>
    match (if stat_fails then none else fs p) with
    | none => 0
    | some node => if node.kind = NodeKind.block then 1 else 0

/-! ## `crypto_encrypt_device` -/

/-- Fault switches for one call of `crypto_encrypt_device`.  `read i`, `update i`,
`seek i` and `write i` are for the calls of iteration `i` of the loop.  There is
no switch for `fflush(device)`: the stream is taken to have no buffer of its
own, so every `fflush` succeeds, and runs in which one fails are not described. -/
structure DeviceFaults where
  open_device : Bool
  size_query : Bool
  ctx_new : Bool
  enc_init : Bool
  malloc : Bool
  read : Nat → Option Nat
  update : Nat → Bool
  seek : Nat → Bool
  write : Nat → Option Nat

/-- No library call fails. -/
def noDeviceFaults : DeviceFaults :=
  { open_device := false, size_query := false, ctx_new := false, enc_init := false,
    malloc := false, read := fun _ => none, update := fun _ => false, seek := fun _ => false,
    write := fun _ => none }

/-- One iteration of the device loop as seen from the device: where the chunk
was read and how long it was, where the ciphertext was written and how long it
was. -/
structure ChunkRecord where
  read_off : Nat
  read_len : Nat
  write_off : Nat
  write_len : Nat
  deriving DecidableEq, Repr

/-- The variables of the device loop: the bytes on the device, the position of
the stream, the cipher state, the counter `processed` and the record of the
iterations made. -/
structure DeviceState where
  data : List Nat
  pos : Nat
  st : EVP_CIPHER_CTX
  processed : Nat
  log : List ChunkRecord

/-- The loop `while ((bytes_read = fread(inbuf, 1, CHUNK_SIZE, device)) > 0)` of
`crypto_encrypt_device`, with `chunk` for `CHUNK_SIZE`.  Arguments: fuel, the
iteration number and the loop variables.  The result is the status with which
the loop is left (`ETDK_SUCCESS` when the read returns nothing) and the
variables then.  Every `fflush(device)` succeeds, so the bytes of an `fwrite`
are on the device when the next iteration starts. -/
def encrypt_device_loop (C : BlockCipher) (flt : DeviceFaults) (chunk : Nat) :
    Nat → Nat → DeviceState → Option (Int × DeviceState)
  | 0, _, _ => none
  | fuel + 1, i, s =>
    let inbuf := fread (flt.read i) chunk (s.data.drop s.pos)
    let bytes_read := inbuf.length
    if bytes_read = 0 then some (ETDK_SUCCESS, s)
    else if flt.update i then some (ETDK_ERROR_CRYPTO, { s with pos := s.pos + bytes_read })
    else
      let r := EVP_EncryptUpdate C s.st inbuf
      -- fseek(device, -(long)bytes_read, SEEK_CUR); its return value is not looked at
      let wpos := if flt.seek i then s.pos + bytes_read else s.pos
      -- fwrite(outbuf, 1, outlen, device)
      let written := fwrite (flt.write i) r.2
      let io : ChunkRecord :=
        { read_off := s.pos, read_len := bytes_read, write_off := wpos,
          write_len := written.length }
      let s1 : DeviceState :=
        { data := pwrite s.data wpos written, pos := wpos + written.length, st := r.1,
          processed := s.processed, log := s.log ++ [io] }
      if written.length ≠ r.2.length then some ( ETDK_ERROR_IO, s1)
      else
        -- fflush(device) succeeds; processed += bytes_read
        encrypt_device_loop C flt chunk fuel (i + 1)
          { s1 with processed := (s.processed + bytes_read) % 2 ^ 64 }

/-- What a call of `crypto_encrypt_device` did: the status, the file system
afterwards, the final value of `processed` and the record of the iterations. -/
structure DeviceRun where
  rc : Int
  fs : FS
  processed : Nat
  log : List ChunkRecord

/-- The function `crypto_encrypt_device` of `crypto.c`. -/
def crypto_encrypt_device (C : BlockCipher) (flt : DeviceFaults) (fs : FS)
    (device_path : Option String) (ctx : Option crypto_context_t) : Option DeviceRun :=
  match device_path, ctx with
  | some p, some x =>
    -- fopen(device_path, "r+b")
    match (if flt.open_device then none else fs p) with
    | none => some { rc := ETDK_ERROR_IO, fs := fs, processed := 0, log := [] }
    | some node =>
      if (platform_get_device_size flt.size_query fs (some p)).1 ≠ ETDK_SUCCESS then
        some { rc := ETDK_ERROR_IO, fs := fs, processed := 0, log := [] }
      else if flt.ctx_new then
        some { rc := ETDK_ERROR_CRYPTO, fs := fs, processed := 0, log := [] }
      else if flt.enc_init then
        some { rc := ETDK_ERROR_CRYPTO, fs := fs, processed := 0, log := [] }
      else if flt.malloc then
        some { rc := ETDK_ERROR_MEMORY, fs := fs, processed := 0, log := [] }
      else
        let s0 : DeviceState :=
          { data := node.data, pos := 0, st := EVP_EncryptInit_ex x.key x.iv,
            processed := 0, log := [] }
        match encrypt_device_loop C flt (1024 * 1024) (16 * node.data.length + 16) 0 s0 with
        | none => none
        | some (rc, s) =>
          some { rc := rc, fs := fs.put p (some { node with data := s.data }),
                 processed := s.processed, log := s.log }
  | _, _ => some { rc := ETDK_ERROR_CRYPTO, fs := fs, processed := 0, log := [] }

/-! ## The two loops, one iteration at a time -/

/-- The variables of the read loop of `crypto_encrypt_file`: the cipher state, the
unread input and the bytes written to the output so far. -/
structure FileState where
  st : EVP_CIPHER_CTX
  rest : List Nat
  out : List Nat

/-- One iteration of the read loop of `crypto_encrypt_file` that runs to its end:
the variables with which iteration `i + 1` starts, or `none` when the loop is
left in iteration `i`. -/
def file_iteration (C : BlockCipher) (flt : FileFaults) (bufsz i : Nat) (s : FileState) :
    Option FileState :=
  let inbuf := fread (flt.read i) bufsz s.rest
  if inbuf.length = 0 then none
  else if flt.update i then none
  else
    let r := EVP_EncryptUpdate C s.st inbuf
    some { st := r.1, rest := s.rest.drop inbuf.length,
           out := s.out ++ fwrite (flt.write i) r.2 }

/-- The variables with which iteration `k` of the read loop starts, if the loop
gets that far. -/
def file_state_at (C : BlockCipher) (flt : FileFaults) (bufsz : Nat) (s0 : FileState) :
    Nat → Option FileState
  | 0 => some s0
  | k + 1 => (file_state_at C flt bufsz s0 k).bind (file_iteration C flt bufsz k)

/-- One iteration of the loop of `crypto_encrypt_device` that runs to its end: the
variables with which iteration `i + 1` starts, or `none` when the loop is left
in iteration `i`. -/
def device_iteration (C : BlockCipher) (flt : DeviceFaults) (chunk i : Nat) (s : DeviceState) :
    Option DeviceState :=
  let inbuf := fread (flt.read i) chunk (s.data.drop s.pos)
  if inbuf.length = 0 then none
  else if flt.update i then none
  else
    let r := EVP_EncryptUpdate C s.st inbuf
    let wpos := if flt.seek i then s.pos + inbuf.length else s.pos
    let written := fwrite (flt.write i) r.2
    if written.length ≠ r.2.length then none
    else
      some { data := pwrite s.data wpos written, pos := wpos + written.length, st := r.1,
             processed := (s.processed + inbuf.length) % 2 ^ 64,
             log := s.log ++ [⟨s.pos, inbuf.length, wpos, written.length⟩] }

/-- The variables with which iteration `k` of the device loop starts, if the loop
gets that far. -/
def device_state_at (C : BlockCipher) (flt : DeviceFaults) (chunk : Nat) (s0 : DeviceState) :
    Nat → Option DeviceState
  | 0 => some s0
  | k + 1 => (device_state_at C flt chunk s0 k).bind (device_iteration C flt chunk k)

/-! ## `main.c` -/

/-- The libc call `remove(path)`: the return value and the file system
afterwards.  It fails when asked to (`fails`) or when nothing has that name. -/
def libc_remove (fails : Bool) (fs : FS) (path : String) : Int × FS :=
  if fails then (-1, fs)
  else
    match fs path with
    | none => (-1, fs)
    | some _ => (0, fs.put path none)

/-- The libc call `rename(old, new)`: the return value and the file system
afterwards.  An existing file at `new` is replaced. -/
def libc_rename (fails : Bool) (fs : FS) (old new : String) : Int × FS :=
  if fails then (-1, fs)
  else
    match fs old with
    | none => (-1, fs)
    | some node => (0, (fs.put old none).put new (some node))

/-- The string that `snprintf(buf, size, "%s...", ...)` leaves in `buf` when the
formatted text is `text`: its first `size - 1` characters.  A character of the
string stands for one byte of the path. -/
def snprintf (size : Nat) (text : String) : String :=
  String.mk (text.data.take (size - 1))

/-- The call `fgets(buf, size, stdin)` on the pending input: `none` at end of
input, else the characters up to and including the first newline, at most
`size - 1` of them. -/
def fgets (size : Nat) (input : List Char) : Option (List Char) :=
  match input with
  | [] => none
  | _ =>
    let line := input.takeWhile (fun ch => ch ≠ '\n')
    let line := if line.length < input.length then line ++ ['\n'] else line
    some (line.take (size - 1))

/-- The test `strncmp(confirm, "YES\n", 4) != 0` negated: the answer starts with
the four characters of "YES" and a newline. -/
def confirmed (answer : Option (List Char)) : Bool :=
  match answer with
  | none => false
  | some line => line.take 4 == ['Y', 'E', 'S', '\n']

/-- What `main` does that the claims speak of, in the order it does it. -/
inductive Event where
  /-- The call `crypto_init(&ctx)` returned this status. -/
  | init (rc : Int)
  /-- The call `platform_lock_memory(&ctx, sizeof(ctx))`. -/
  | lock
  /-- The call `crypto_encrypt_device` returned this status. -/
  | encrypt_device (rc : Int)
  /-- The call `crypto_encrypt_file` returned this status. -/
  | encrypt_file (rc : Int)
  /-- The call `remove(target_file)` returned this value. -/
  | remove_original (rc : Int)
  /-- The call `rename(temp_path, encrypted_path)` returned this value. -/
  | rename_temp (rc : Int)
  /-- The call `remove(temp_path)` on the failure path returned this value. -/
  | remove_temp (rc : Int)
  /-- The call `crypto_display_key(&ctx)` printed this key and IV. -/
  | display (key iv : List Nat)
  /-- The function `crypto_secure_wipe_key` ran on the context. -/
  | wipe
  /-- The call `platform_unlock_memory(&ctx, sizeof(ctx))`. -/
  | unlock
  /-- The function `crypto_cleanup` zeroed the whole context. -/
  | cleanup
  deriving DecidableEq, Repr

/-- The events of the call `crypto_display_key(ctx)`. -/
def crypto_display_key (ctx : Option crypto_context_t) : List Event :=
  match ctx with
  | none => []
  | some x => [Event.display x.key.val x.iv.val]

/-- The events of the call `crypto_cleanup(ctx)`: the wipe it calls and its own
`memset`. -/
def cleanup_events (ctx : Option crypto_context_t) : List Event :=
  match ctx with
  | none => []
  | some _ => [Event.wipe, Event.cleanup]

/-- Everything outside the program that a run of `main` depends on. -/
structure MainEnv where
  C : BlockCipher
  rng : RandSource
  fs : FS
  /-- The call `stat` fails on this path although it exists. -/
  stat_fails : String → Bool
  /-- The characters waiting on standard input. -/
  stdin : List Char
  /-- What the stack slot of `ctx` holds before `crypto_init`. -/
  ctx0 : crypto_context_t
  file_faults : FileFaults
  device_faults : DeviceFaults
  /-- The `remove` call with this number (0 for the original, 1 for the temporary
  file) fails. -/
  remove_fails : Nat → Bool
  rename_fails : Bool

/-- What a run of `main` leaves: the exit code, the file system, the context as
it is when `main` returns (`none` when `main` returned before it existed) and
the events in order. -/
structure MainResult where
  exit_code : Int
  fs : FS
  ctx : Option crypto_context_t
  trace : List Event

/-- The three statements that end every failure branch of `main` after the key
exists: `platform_unlock_memory`, `crypto_cleanup`, `return 1`.  `c` is the
number of `RAND_bytes` calls made so far. -/
def main_fail (env : MainEnv) (c : Nat) (ctx : Option crypto_context_t) (fs : FS)
    (trace : List Event) : MainResult :=
  { exit_code := 1, fs := fs, ctx := (crypto_cleanup env.rng c ctx).1,
    trace := trace ++ [Event.unlock] ++ cleanup_events ctx }

/-- The end of `main` after a successful encryption: display the key, wipe it,
check the result of the wipe, unlock, clean up, `return 0`. -/
def main_finish (env : MainEnv) (c : Nat) (ctx : Option crypto_context_t) (fs : FS)
    (trace : List Event) : MainResult :=
  let trace := trace ++ crypto_display_key ctx
  let w := crypto_secure_wipe_key env.rng c ctx
  let trace := trace ++ [Event.wipe]
  if w.2.1 ≠ ETDK_SUCCESS then main_fail env w.2.2 w.1 fs trace
  else
    { exit_code := 0, fs := fs, ctx := (crypto_cleanup env.rng w.2.2 w.1).1,
      trace := trace ++ [Event.unlock] ++ cleanup_events w.1 }

/-- The function `main` of `main.c`; `argv` holds the `argc` arguments.  Printing
is left out except for the key display. -/
def main (env : MainEnv) (argv : List String) : Option MainResult :=
  match argv with
  | [_, target_file] =>
    if target_file = "--help" ∨ target_file = "-h" ∨ target_file = "help" then
      some { exit_code := 0, fs := env.fs, ctx := none, trace := [] }
    else
      let is_device := platform_is_device (env.stat_fails target_file) env.fs (some target_file)
      if is_device < 0 then some { exit_code := 1, fs := env.fs, ctx := none, trace := [] }
      else if confirmed (fgets 10 env.stdin) = false then
        some { exit_code := 1, fs := env.fs, ctx := none, trace := [] }
      else
        let i := crypto_init env.rng 0 (some env.ctx0)
        let ctx := i.1
        let c := i.2.2
        if i.2.1 ≠ ETDK_SUCCESS then
          some { exit_code := 1, fs := env.fs, ctx := ctx, trace := [Event.init i.2.1] }
        else
          let trace := [Event.init i.2.1, Event.lock]
          if is_device ≠ 0 then
            match crypto_encrypt_device env.C env.device_faults env.fs (some target_file) ctx with
            | none => none
            | some run =>
              let trace := trace ++ [Event.encrypt_device run.rc]
              if run.rc ≠ ETDK_SUCCESS then some (main_fail env c ctx run.fs trace)
              else some (main_finish env c ctx run.fs trace)
          else
            let temp_path := snprintf 512 (target_file ++ ".tmp_encrypted")
            let encrypted_path := snprintf 512 target_file
            match crypto_encrypt_file env.C env.file_faults env.fs (some target_file)
                (some temp_path) ctx with
            | none => none
            | some (result, fs1) =>
              let trace := trace ++ [Event.encrypt_file result]
              if result ≠ ETDK_SUCCESS then some (main_fail env c ctx fs1 trace)
              else
                let r1 := libc_remove (env.remove_fails 0) fs1 target_file
                let trace := trace ++ [Event.remove_original r1.1]
                if r1.1 ≠ 0 then
                  let r3 := libc_remove (env.remove_fails 1) r1.2 temp_path
                  some (main_fail env c ctx r3.2 (trace ++ [Event.remove_temp r3.1]))
                else
                  let r2 := libc_rename env.rename_fails r1.2 temp_path encrypted_path
                  let trace := trace ++ [Event.rename_temp r2.1]
                  if r2.1 ≠ 0 then
                    let r3 := libc_remove (env.remove_fails 1) r2.2 temp_path
                    some (main_fail env c ctx r3.2 (trace ++ [Event.remove_temp r3.1]))
                  else some (main_finish env c ctx r2.2 trace)
  | _ => some { exit_code := 1, fs := env.fs, ctx := none, trace := [] }

/-! ## Sample data for the concrete instances -/

/-- A random source whose every call succeeds; call `k` yields the bytes
`40 * k + 1`, `40 * k + 2`, ... -/
def rngCount : RandSource := fun k => { ret := 1, bytes := fun i => 40 * k + i + 1, stored := 0 }

/-- A random source whose first call succeeds and whose later calls fail. -/
def rngKeyOnly : RandSource := fun k =>
  if k = 0 then { ret := 1, bytes := fun i => i + 1, stored := 0 }
  else { ret := 0, bytes := fun _ => 7, stored := 0 }

/-- A context holding a live key, IV and a non-null cipher handle. -/
def ctxLive : crypto_context_t :=
  { key := Buf.fill 32 0xAB, iv := Buf.fill 16 0xCD, cipher_ctx := 1 }

/-- The array read backwards. -/
def Buf.reverse {n : Nat} (b : Buf n) : Buf n := ⟨b.val.reverse, by simp [b.property]⟩

/-- A stand-in block cipher for the concrete instances: exclusive or with the
first 16 bytes of the key, then the block read backwards. -/
def toyCipher : BlockCipher :=
  { enc := fun k b => (b.xor (toBlock k.val)).reverse,
    dec := fun k b => b.reverse.xor (toBlock k.val) }

/-- The five bytes of "HELLO". -/
def helloBytes : List Nat := [72, 69, 76, 76, 79]

/-- A file system with the single regular file `hello.txt` holding "HELLO". -/
def fsHello : FS := fun p =>
  if p = "hello.txt" then some { kind := NodeKind.regular, data := helloBytes } else none

/-- The content of a device of 64 bytes. -/
def devData : List Nat := List.replicate 64 0x5A

/-- A file system with the single block device `/dev/sdb` holding `devData`. -/
def fsDevice : FS := fun p =>
  if p = "/dev/sdb" then some { kind := NodeKind.block, data := devData } else none

/-- Whether an event is the key display. -/
def Event.isDisplay : Event → Bool
  | Event.display _ _ => true
  | _ => false

/-- A run in which nothing fails: the target is `hello.txt`, the operator answers
YES. -/
def envBase : MainEnv :=
  { C := toyCipher, rng := rngCount, fs := fsHello, stat_fails := fun _ => false,
    stdin := ['Y', 'E', 'S', '\n'], ctx0 := ctxLive, file_faults := noFileFaults,
    device_faults := noDeviceFaults, remove_fails := fun _ => false, rename_fails := false }

/-- The run of `envBase`, except that the random source fails on the IV draw. -/
def envIvDrawFails : MainEnv := { envBase with rng := rngKeyOnly }

/-- The run of `envBase`, except that the first `EVP_EncryptUpdate` fails. -/
def envUpdateFails : MainEnv :=
  { envBase with file_faults := { noFileFaults with update := fun _ => true } }

/-- The run of `envBase`, except that `rename` fails. -/
def envRenameFails : MainEnv := { envBase with rename_fails := true }

/-- A file system with the single regular file `disk.img` of 17 bytes, used as a
simulated device. -/
def fsImage17 : FS := fun p =>
  if p = "disk.img" then some { kind := NodeKind.regular, data := List.replicate 17 0x5A }
  else none

/-- The content of a simulated device of 4097 bytes. -/
def imageData : List Nat := List.replicate 4097 0x5A

/-- A file system with the single regular file `disk.img` holding `imageData`, used
as a simulated device. -/
def fsImage4097 : FS := fun p =>
  if p = "disk.img" then some { kind := NodeKind.regular, data := imageData } else none

/-- A target path of 511 characters: two names of 255 characters with a slash
between them. -/
def longPath : String := String.mk (List.replicate 255 'a' ++ '/' :: List.replicate 255 'b')

/-- A file system with the single regular file `longPath` holding "HELLO". -/
def fsLong : FS := fun p =>
  if p = longPath then some { kind := NodeKind.regular, data := helloBytes } else none

/-- The run of `envBase` on the file system `fsLong`. -/
def envLongPath : MainEnv := { envBase with fs := fsLong }

/-- Every `fread` of `crypto_encrypt_file` meets a read error before any byte. -/
def fileReadError : FileFaults := { noFileFaults with read := fun _ => some 0 }

/-- Every `fread` of `crypto_encrypt_device` meets a read error before any byte. -/
def deviceReadError : DeviceFaults := { noDeviceFaults with read := fun _ => some 0 }

/-- Every `fwrite` of `crypto_encrypt_file` fails before any byte. -/
def fileWriteError : FileFaults := { noFileFaults with write := fun _ => some 0 }

/-- Every `fseek` of `crypto_encrypt_device` fails and leaves the position of the
stream where it was. -/
def deviceSeekFail : DeviceFaults := { noDeviceFaults with seek := fun _ => true }

/-- A file system with the single regular file `disk.img` holding the 64 bytes
of `devData`. -/
def fsImage64 : FS := fun p =>
  if p = "disk.img" then some { kind := NodeKind.regular, data := devData } else none

/-- Every `fwrite` of `crypto_encrypt_device` stops after 10 bytes. -/
def deviceShortWrite : DeviceFaults := { noDeviceFaults with write := fun _ => some 10 }

/-! # Theorems -/

/-! ## Buffers -/

theorem Buf.store_full {n : Nat} (b : Buf n) (src : List Nat) (h : src.length = n) :
    b.store src = ⟨src, h⟩ := by
  apply Subtype.ext
  simp only [Buf.store]
  rw [List.take_append_of_le_length (by omega)]
  exact List.take_of_length_le (by omega)

theorem memset_full {n : Nat} (b : Buf n) (c : Nat) : memset b c n = Buf.fill n (c % 256) := by
  unfold memset
  rw [Buf.store_full b _ (List.length_replicate n _)]
  rfl

theorem RandReply.length_drawn (r : RandReply) (len : Nat) : (r.drawn len).length = len := by
  simp [RandReply.drawn]

theorem RAND_bytes_ok {n : Nat} (r : RandReply) (buf : Buf n) (h : r.ret = 1) :
    RAND_bytes r buf n = (⟨r.drawn n, r.length_drawn n⟩, 1) := by
  simp [RAND_bytes, h, Buf.store_full buf _ (r.length_drawn n)]

theorem volatile_zero_key : volatile_zero (Buf.fill 32 (0 % 256)) 32 = Buf.fill 32 0 := by
  decide

theorem volatile_zero_iv : volatile_zero (Buf.fill 16 (0 % 256)) 16 = Buf.fill 16 0 := by
  decide

/-- What `crypto_secure_wipe_key` leaves of a context: zero key, zero IV, the
cipher handle as it was. -/
theorem crypto_secure_wipe_key_some (rng : RandSource) (c : Nat) (x : crypto_context_t) :
    crypto_secure_wipe_key rng c (some x) =
      (some { key := Buf.fill 32 0, iv := Buf.fill 16 0, cipher_ctx := x.cipher_ctx },
        ETDK_SUCCESS, c + 2) := by
  simp only [crypto_secure_wipe_key]
  have hk : AES_KEY_SIZE = 32 := rfl
  have hv : AES_BLOCK_SIZE = 16 := rfl
  simp only [hk, hv, memset_full, volatile_zero_key, volatile_zero_iv]

/-! ## Key material: `crypto_init`, `crypto_secure_wipe_key`, `crypto_cleanup` -/

theorem crypto_generate_key_some (r : RandReply) (k : Buf 32) :
    crypto_generate_key r (some k) AES_KEY_SIZE =
      if r.ret = 1 then (some ⟨r.drawn 32, r.length_drawn 32⟩, ETDK_SUCCESS)
      else (some (RAND_bytes r k 32).1, ETDK_ERROR_CRYPTO) := by
  have hk : AES_KEY_SIZE = 32 := rfl
  by_cases h : r.ret = 1
  · simp [crypto_generate_key, hk, RAND_bytes_ok r k h, h]
  · simp [crypto_generate_key, hk, RAND_bytes, h]

/-- C1: for every non-null context and every behaviour of the random source,
`crypto_secure_wipe_key` returns `ETDK_SUCCESS` and leaves the 32 key bytes and
the 16 IV bytes zero; a second call on the result, with the random source
behaving in any way again, returns `ETDK_SUCCESS` and leaves the same zero key
and IV. -/
theorem C1_wipe_zeroes_key_and_iv_twice (rng rng2 : RandSource) (c c2 : Nat)
    (x : crypto_context_t) :
    ∃ y z : crypto_context_t,
      crypto_secure_wipe_key rng c (some x) = (some y, ETDK_SUCCESS, c + 2) ∧
      y.key.val = List.replicate 32 0 ∧ y.iv.val = List.replicate 16 0 ∧
      crypto_secure_wipe_key rng2 c2 (some y) = (some z, ETDK_SUCCESS, c2 + 2) ∧
      z.key.val = List.replicate 32 0 ∧ z.iv.val = List.replicate 16 0 ∧
      z.key = y.key ∧ z.iv = y.iv := by
  refine ⟨_, _, crypto_secure_wipe_key_some rng c x, rfl, rfl,
    crypto_secure_wipe_key_some rng2 c2 _, rfl, rfl, rfl, rfl⟩

/-- C9: `crypto_init` returns `ETDK_ERROR_CRYPTO` exactly when the context
pointer is null or the random source fails on the key draw or on the IV draw;
in every other case it returns `ETDK_SUCCESS` with the key equal to the 32 bytes
of the first draw, the IV equal to the 16 bytes of the next draw and a null
cipher handle, whatever the context held before. -/
theorem C9_crypto_init_result (rng : RandSource) (c : Nat) (ctx : Option crypto_context_t) :
    ((crypto_init rng c ctx).2.1 = ETDK_ERROR_CRYPTO ↔
        (ctx = none ∨ (rng c).ret ≠ 1 ∨ (rng (c + 1)).ret ≠ 1)) ∧
    (¬ (ctx = none ∨ (rng c).ret ≠ 1 ∨ (rng (c + 1)).ret ≠ 1) →
        crypto_init rng c ctx =
          (some { key := ⟨(rng c).drawn 32, (rng c).length_drawn 32⟩,
                  iv := ⟨(rng (c + 1)).drawn 16, (rng (c + 1)).length_drawn 16⟩,
                  cipher_ctx := 0 },
            ETDK_SUCCESS, c + 2)) := by
  have hv : AES_BLOCK_SIZE = 16 := rfl
  cases ctx with
  | none => simp [crypto_init]
  | some x =>
    by_cases h1 : (rng c).ret = 1
    · by_cases h2 : (rng (c + 1)).ret = 1
      · simp [crypto_init, crypto_generate_key_some, h1, h2, hv, RAND_bytes_ok,
          crypto_context_t.zeroed, ETDK_SUCCESS, ETDK_ERROR_CRYPTO]
      · simp [crypto_init, crypto_generate_key_some, h1, h2, hv, RAND_bytes,
          crypto_context_t.zeroed, ETDK_SUCCESS, ETDK_ERROR_CRYPTO]
    · simp [crypto_init, crypto_generate_key_some, h1, ETDK_SUCCESS, ETDK_ERROR_CRYPTO]

/-- C9, a concrete run: with a random source that succeeds on every call, `crypto_init` on a live context succeeds, and the key and IV it stores are
the bytes drawn, not what the context held. -/
theorem C9_crypto_init_result_witness :
    crypto_init rngCount 0 (some ctxLive) =
      (some { key := ⟨(rngCount 0).drawn 32, (rngCount 0).length_drawn 32⟩,
              iv := ⟨(rngCount 1).drawn 16, (rngCount 1).length_drawn 16⟩,
              cipher_ctx := 0 },
        ETDK_SUCCESS, 2) :=
  (C9_crypto_init_result rngCount 0 (some ctxLive)).2 (by simp [rngCount])

/-- C10, as stated, fails: a context whose cipher handle is 1 still has the
handle 1 after `crypto_secure_wipe_key` has returned `ETDK_SUCCESS`. -/
theorem C10_wipe_keeps_cipher_handle :
    (crypto_secure_wipe_key rngCount 0 (some ctxLive)).2.1 = ETDK_SUCCESS ∧
    (crypto_secure_wipe_key rngCount 0 (some ctxLive)).1.map (fun y => y.cipher_ctx) = some 1 := by
  rw [crypto_secure_wipe_key_some]
  exact ⟨rfl, rfl⟩

/-- C10, amended: `crypto_secure_wipe_key` returns `ETDK_SUCCESS` with the key
and the IV zero and the cipher handle unchanged; it is `crypto_cleanup` that
leaves the whole structure zero, the cipher handle included. -/
theorem C10_wipe_then_cleanup_zeroes_struct (rng : RandSource) (c : Nat)
    (x : crypto_context_t) :
    crypto_secure_wipe_key rng c (some x) =
      (some { key := Buf.fill 32 0, iv := Buf.fill 16 0, cipher_ctx := x.cipher_ctx },
        ETDK_SUCCESS, c + 2) ∧
    (crypto_cleanup rng c (some x)).1 =
      some { key := Buf.fill 32 0, iv := Buf.fill 16 0, cipher_ctx := 0 } := by
  refine ⟨crypto_secure_wipe_key_some rng c x, ?_⟩
  simp [crypto_cleanup, crypto_secure_wipe_key_some, crypto_context_t.zeroed]

/-! ## Blocks and CBC chaining -/

theorem toBlock_val_of_le (l : List Nat) (h : 16 ≤ l.length) : (toBlock l).val = l.take 16 := by
  simp only [toBlock, Buf.store, Buf.fill]
  rw [List.take_append_of_le_length h]

theorem toBlock_append (a b : List Nat) (h : 16 ≤ a.length) : toBlock (a ++ b) = toBlock a := by
  apply Subtype.ext
  rw [toBlock_val_of_le _ (by simp; omega), toBlock_val_of_le _ h,
    List.take_append_of_le_length h]

theorem toBlock_buf_append (c : Buf 16) (l : List Nat) : toBlock (c.val ++ l) = c := by
  apply Subtype.ext
  rw [toBlock_val_of_le _ (by simp [c.property])]
  exact List.take_left' c.property

theorem Buf.xor_xor_cancel {n : Nat} (a b : Buf n) : (a.xor b).xor b = a := by
  apply Subtype.ext
  apply List.ext_getElem
  · simp [Buf.xor, a.property, b.property]
  · intro i h1 h2
    simp [Buf.xor, Nat.xor_cancel_right]

theorem length_cbc_encrypt (C : BlockCipher) (key : Buf 32) (n : Nat) (chain : Buf 16)
    (data : List Nat) : (cbc_encrypt C key n chain data).1.length = 16 * n := by
  induction n generalizing chain data with
  | zero => simp [cbc_encrypt]
  | succ n ih =>
    have hc := (C.enc key ((toBlock data).xor chain)).property
    simp only [cbc_encrypt, List.length_append, ih, hc]
    omega

theorem cbc_encrypt_prefix (C : BlockCipher) (key : Buf 32) (n : Nat) (chain : Buf 16)
    (a b : List Nat) (h : 16 * n ≤ a.length) :
    cbc_encrypt C key n chain (a ++ b) = cbc_encrypt C key n chain a := by
  induction n generalizing chain a with
  | zero => simp [cbc_encrypt]
  | succ n ih =>
    have h16 : 16 ≤ a.length := by omega
    simp only [cbc_encrypt]
    rw [toBlock_append a b h16, List.drop_append_of_le_length h16,
      ih _ (a.drop 16) (by simp; omega)]

theorem cbc_encrypt_add (C : BlockCipher) (key : Buf 32) (n m : Nat) (chain : Buf 16)
    (data : List Nat) :
    cbc_encrypt C key (n + m) chain data =
      ((cbc_encrypt C key n chain data).1 ++
          (cbc_encrypt C key m (cbc_encrypt C key n chain data).2 (data.drop (16 * n))).1,
        (cbc_encrypt C key m (cbc_encrypt C key n chain data).2 (data.drop (16 * n))).2) := by
  induction n generalizing chain data with
  | zero => simp [cbc_encrypt]
  | succ n ih =>
    have e : n + 1 + m = (n + m) + 1 := by omega
    rw [e]
    simp only [cbc_encrypt, ih, List.drop_drop, List.append_assoc]
    have e2 : 16 + 16 * n = 16 * (n + 1) := by omega
    rw [e2]

theorem cbc_decrypt_encrypt (C : BlockCipher) (hC : C.Inverts) (key : Buf 32) (n : Nat)
    (chain : Buf 16) (data : List Nat) (h : 16 * n ≤ data.length) :
    cbc_decrypt C key n chain (cbc_encrypt C key n chain data).1 = data.take (16 * n) := by
  induction n generalizing chain data with
  | zero => simp [cbc_decrypt]
  | succ n ih =>
    have h16 : 16 ≤ data.length := by omega
    simp only [cbc_encrypt, cbc_decrypt]
    have hc := (C.enc key ((toBlock data).xor chain)).property
    rw [toBlock_buf_append, hC, Buf.xor_xor_cancel, toBlock_val_of_le _ h16,
      List.drop_left' hc, ih _ (data.drop 16) (by simp; omega)]
    have e : 16 * (n + 1) = 16 + 16 * n := by omega
    rw [e, List.take_add]

/-! ## The EVP layer -/

theorem EVP_EncryptUpdate_buf_length (C : BlockCipher) (st : EVP_CIPHER_CTX) (inp : List Nat) :
    (EVP_EncryptUpdate C st inp).1.buf.length = (st.buf.length + inp.length) % 16 := by
  simp only [EVP_EncryptUpdate, List.length_drop, List.length_append]
  omega

theorem EVP_EncryptUpdate_out_length (C : BlockCipher) (st : EVP_CIPHER_CTX) (inp : List Nat) :
    (EVP_EncryptUpdate C st inp).2.length = 16 * ((st.buf.length + inp.length) / 16) := by
  simp only [EVP_EncryptUpdate, length_cbc_encrypt, List.length_append]

theorem EVP_EncryptUpdate_key (C : BlockCipher) (st : EVP_CIPHER_CTX) (inp : List Nat) :
    (EVP_EncryptUpdate C st inp).1.key = st.key := rfl

theorem EVP_EncryptUpdate_nil (C : BlockCipher) (st : EVP_CIPHER_CTX) (h : st.buf.length < 16) :
    EVP_EncryptUpdate C st [] = (st, []) := by
  have h0 : st.buf.length / 16 = 0 := by omega
  simp [EVP_EncryptUpdate, h0, cbc_encrypt]

/-- Feeding `a` and then `b` gives the output and the state of feeding `a ++ b`
at once: where the input is cut does not matter. -/
theorem EVP_EncryptUpdate_append (C : BlockCipher) (st : EVP_CIPHER_CTX) (a b : List Nat) :
    (EVP_EncryptUpdate C (EVP_EncryptUpdate C st a).1 b).1 = (EVP_EncryptUpdate C st (a ++ b)).1 ∧
    (EVP_EncryptUpdate C st a).2 ++ (EVP_EncryptUpdate C (EVP_EncryptUpdate C st a).1 b).2 =
      (EVP_EncryptUpdate C st (a ++ b)).2 := by
  have hn : (st.buf ++ (a ++ b)).length / 16 =
      (st.buf ++ a).length / 16 +
        ((st.buf ++ a).drop (16 * ((st.buf ++ a).length / 16)) ++ b).length / 16 := by
    simp only [List.length_append, List.length_drop]
    omega
  have hle : 16 * ((st.buf ++ a).length / 16) ≤ (st.buf ++ a).length := by omega
  have hd : (st.buf ++ (a ++ b)).drop (16 * ((st.buf ++ a).length / 16)) =
      (st.buf ++ a).drop (16 * ((st.buf ++ a).length / 16)) ++ b := by
    rw [← List.append_assoc, List.drop_append_of_le_length hle]
  have hp : cbc_encrypt C st.key ((st.buf ++ a).length / 16) st.chain (st.buf ++ (a ++ b)) =
      cbc_encrypt C st.key ((st.buf ++ a).length / 16) st.chain (st.buf ++ a) := by
    rw [← List.append_assoc, cbc_encrypt_prefix _ _ _ _ _ _ hle]
  constructor
  · simp only [EVP_EncryptUpdate]
    rw [hn, cbc_encrypt_add, hp, hd]
    congr 1
    rw [← hd, List.drop_drop, Nat.mul_add]
  · simp only [EVP_EncryptUpdate]
    rw [hn, cbc_encrypt_add, hp, hd]

theorem EVP_padded_eq (C : BlockCipher) (key : Buf 32) (iv : Buf 16) (msg : List Nat) :
    (EVP_EncryptUpdate C (EVP_EncryptInit_ex key iv) msg).2 ++
        EVP_EncryptFinal_ex C (EVP_EncryptUpdate C (EVP_EncryptInit_ex key iv) msg).1 =
      cbc_encrypt_padded C key iv msg := by
  have hle : 16 * (msg.length / 16) ≤ msg.length := by omega
  have hpad : 16 - (msg.length - 16 * (msg.length / 16)) = 16 - msg.length % 16 := by omega
  simp only [EVP_EncryptUpdate, EVP_EncryptInit_ex, EVP_EncryptFinal_ex, cbc_encrypt_padded,
    List.nil_append, List.length_drop, hpad]
  rw [cbc_encrypt_add, cbc_encrypt_prefix _ _ _ _ _ _ hle, List.drop_append_of_le_length hle]
  simp [cbc_encrypt]

theorem length_cbc_encrypt_padded (C : BlockCipher) (key : Buf 32) (iv : Buf 16)
    (msg : List Nat) :
    (cbc_encrypt_padded C key iv msg).length = 16 * (msg.length / 16 + 1) := by
  simp only [cbc_encrypt_padded, length_cbc_encrypt]

theorem pkcs7_unpad_pad (msg : List Nat) (p : Nat) (h1 : 1 ≤ p) (h16 : p ≤ 16) :
    pkcs7_unpad (msg ++ List.replicate p p) = some msg := by
  have hp : p ≠ 0 := by omega
  have hlast : (msg ++ List.replicate p p).getLast? = some p := by
    rw [List.getLast?_append, List.getLast?_replicate]
    simp [hp]
  have hlen : (msg ++ List.replicate p p).length - p = msg.length := by simp
  simp only [pkcs7_unpad, hlast, hlen]
  rw [List.drop_left' rfl, List.take_left' rfl]
  simp [h1, h16]

/-- Decrypting the padded CBC ciphertext of a message gives the message back. -/
theorem decrypt_file_cbc_encrypt_padded (C : BlockCipher) (hC : C.Inverts) (key : Buf 32)
    (iv : Buf 16) (msg : List Nat) :
    decrypt_file C key iv (cbc_encrypt_padded C key iv msg) = some msg := by
  have hl := length_cbc_encrypt_padded C key iv msg
  have hm : 16 * (msg.length / 16 + 1) % 16 = 0 := by omega
  have hd : 16 * (msg.length / 16 + 1) / 16 = msg.length / 16 + 1 := by omega
  have hlen : (msg ++ List.replicate (16 - msg.length % 16) (16 - msg.length % 16)).length =
      16 * (msg.length / 16 + 1) := by
    simp only [List.length_append, List.length_replicate]
    omega
  simp only [decrypt_file, hl, hm, hd]
  simp only [cbc_encrypt_padded]
  rw [cbc_decrypt_encrypt C hC _ _ _ _ (by omega), List.take_of_length_le (by omega)]
  simpa using pkcs7_unpad_pad msg (16 - msg.length % 16) (by omega) (by omega)

/-! ## `crypto_encrypt_file` -/

theorem FS.put_put (fs : FS) (p : String) (a b : Option Node) :
    (fs.put p a).put p b = fs.put p b := by
  funext q
  simp only [FS.put]
  split <;> rfl

theorem FS.put_same (fs : FS) (p : String) (a : Option Node) : (fs.put p a) p = a := by
  simp [FS.put]

theorem FS.put_other (fs : FS) (p q : String) (a : Option Node) (h : q ≠ p) :
    (fs.put p a) q = fs q := by
  simp [FS.put, h]

theorem drop_min_length (n : Nat) (l : List Nat) : l.drop (min n l.length) = l.drop n := by
  by_cases h : n ≤ l.length
  · rw [Nat.min_eq_left h]
  · rw [Nat.min_eq_right (by omega), List.drop_of_length_le (by omega),
      List.drop_of_length_le (by omega)]

theorem fread_length_le (fault : Option Nat) (size : Nat) (rest : List Nat) :
    (fread fault size rest).length ≤ rest.length := by
  cases fault <;> simp only [fread, List.length_take] <;> omega

/-- The read loop always ends when the fuel exceeds the unread input, whatever fails. -/
theorem encrypt_file_loop_total (C : BlockCipher) (flt : FileFaults) (bufsz : Nat) :
    ∀ (fuel i : Nat) (st : EVP_CIPHER_CTX) (rest out : List Nat), rest.length < fuel →
      ∃ e, encrypt_file_loop C flt bufsz fuel i st rest out = some e := by
  intro fuel
  induction fuel with
  | zero => intro i st rest out h; omega
  | succ fuel ih =>
    intro i st rest out h
    simp only [encrypt_file_loop]
    split
    · exact ⟨_, rfl⟩
    · rename_i hlen
      split
      · exact ⟨_, rfl⟩
      · apply ih
        have hle := fread_length_le (flt.read i) bufsz rest
        simp only [List.length_drop]
        omega

/-- Without faults the read loop feeds the whole input to the cipher, and its
output is that of a single `EVP_EncryptUpdate` over the whole input, whatever
the size of the read buffer. -/
theorem encrypt_file_loop_noFaults (C : BlockCipher) (bufsz : Nat) (hb : 0 < bufsz) :
    ∀ (fuel i : Nat) (st : EVP_CIPHER_CTX) (rest out : List Nat), rest.length < fuel →
      st.buf.length < 16 →
      ∃ k, encrypt_file_loop C noFileFaults bufsz fuel i st rest out =
        some { ok := true, st := (EVP_EncryptUpdate C st rest).1,
               out := out ++ (EVP_EncryptUpdate C st rest).2, calls := k } := by
  intro fuel
  induction fuel with
  | zero => intro i st rest out h; omega
  | succ fuel ih =>
    intro i st rest out h hbuf
    have hr : noFileFaults.read i = none := rfl
    have hu : noFileFaults.update i = false := rfl
    have hw : noFileFaults.write i = none := rfl
    simp only [encrypt_file_loop, hr, hu, hw, fread, fwrite, List.length_take]
    by_cases h0 : min bufsz rest.length = 0
    · have hnil : rest = [] := by
        apply List.eq_nil_of_length_eq_zero
        omega
      subst hnil
      simp [EVP_EncryptUpdate_nil C st hbuf]
    · simp only [h0, if_false, Bool.false_eq_true]
      have hlt : (rest.drop (min bufsz rest.length)).length < fuel := by
        simp only [List.length_drop]
        omega
      have hbuf1 : (EVP_EncryptUpdate C st (rest.take bufsz)).1.buf.length < 16 := by
        rw [EVP_EncryptUpdate_buf_length]
        omega
      obtain ⟨k, hk⟩ := ih (i + 1) (EVP_EncryptUpdate C st (rest.take bufsz)).1
        (rest.drop (min bufsz rest.length)) (out ++ (EVP_EncryptUpdate C st (rest.take bufsz)).2)
        hlt hbuf1
      refine ⟨k, ?_⟩
      rw [hk, drop_min_length]
      have happ := EVP_EncryptUpdate_append C st (rest.take bufsz) (rest.drop bufsz)
      rw [List.take_append_drop] at happ
      rw [happ.1, List.append_assoc, happ.2]

/-- The result of `crypto_encrypt_file` when nothing fails and the output path is
not the input path: `ETDK_SUCCESS`, and the output file holds the padded CBC
ciphertext of the input file, nothing else. -/
theorem crypto_encrypt_file_noFaults (C : BlockCipher) (fs : FS) (inp outp : String)
    (x : crypto_context_t) (node : Node) (hin : fs inp = some node) (hne : inp ≠ outp) :
    crypto_encrypt_file C noFileFaults fs (some inp) (some outp) (some x) =
      some (ETDK_SUCCESS,
        fs.put outp (some { kind := ((fs outp).map Node.kind).getD NodeKind.regular,
                            data := cbc_encrypt_padded C x.key x.iv node.data })) := by
  obtain ⟨k, hk⟩ := encrypt_file_loop_noFaults C 4096 (by omega) (node.data.length + 1) 0
    (EVP_EncryptInit_ex x.key x.iv) node.data [] (by omega) (by simp [EVP_EncryptInit_ex])
  rw [List.nil_append] at hk
  have hw : noFileFaults.write k = none := rfl
  have ho : noFileFaults.open_input = false := rfl
  simp only [crypto_encrypt_file, ho, hin, FS.put_other _ _ _ _ hne, Option.map_some',
    Option.getD_some, hk, FS.put_put, hw, fwrite, EVP_padded_eq]
  simp [noFileFaults]

theorem toyCipher_inverts : toyCipher.Inverts := by
  intro k b
  have hr : (b.xor (toBlock k.val)).reverse.reverse = b.xor (toBlock k.val) :=
    Subtype.ext (List.reverse_reverse _)
  show ((b.xor (toBlock k.val)).reverse.reverse).xor (toBlock k.val) = b
  rw [hr]
  exact Buf.xor_xor_cancel b (toBlock k.val)

/-- C2: when no I/O or cipher call fails, `crypto_encrypt_file` succeeds and the
bytes it leaves in the output file, decrypted with the same key and IV in CBC
mode and with the block padding removed, are the bytes of the input file, for
every length of the input; and the read loop produces the same cipher state and
the same output for every size of the read buffer, so the result does not depend
on where the chunks end. -/
theorem C2_file_round_trip (C : BlockCipher) (hC : C.Inverts) (fs : FS) (inp outp : String)
    (x : crypto_context_t) (node : Node) (hin : fs inp = some node) (hne : inp ≠ outp) :
    ∃ (fs1 : FS) (ct : List Nat),
      crypto_encrypt_file C noFileFaults fs (some inp) (some outp) (some x) =
        some (ETDK_SUCCESS, fs1) ∧
      (fs1 outp).map Node.data = some ct ∧
      decrypt_file C x.key x.iv ct = some node.data ∧
      ∀ bufsz, 0 < bufsz →
        ∃ k, encrypt_file_loop C noFileFaults bufsz (node.data.length + 1) 0
            (EVP_EncryptInit_ex x.key x.iv) node.data [] =
          some { ok := true,
                 st := (EVP_EncryptUpdate C (EVP_EncryptInit_ex x.key x.iv) node.data).1,
                 out := (EVP_EncryptUpdate C (EVP_EncryptInit_ex x.key x.iv) node.data).2,
                 calls := k } := by
  refine ⟨_, _, crypto_encrypt_file_noFaults C fs inp outp x node hin hne, ?_,
    decrypt_file_cbc_encrypt_padded C hC x.key x.iv node.data, ?_⟩
  · rw [FS.put_same]
    rfl
  · intro bufsz hb
    obtain ⟨k, hk⟩ := encrypt_file_loop_noFaults C bufsz hb (node.data.length + 1) 0
      (EVP_EncryptInit_ex x.key x.iv) node.data [] (by omega) (by simp [EVP_EncryptInit_ex])
    exact ⟨k, by simpa using hk⟩

/-- C2, a concrete run: the file `hello.txt` encrypted into
`hello.txt.tmp_encrypted` with the stand-in cipher decrypts to "HELLO". -/
theorem C2_file_round_trip_witness :
    ∃ (fs1 : FS) (ct : List Nat),
      crypto_encrypt_file toyCipher noFileFaults fsHello (some "hello.txt")
          (some "hello.txt.tmp_encrypted") (some ctxLive) = some (ETDK_SUCCESS, fs1) ∧
      (fs1 "hello.txt.tmp_encrypted").map Node.data = some ct ∧
      decrypt_file toyCipher ctxLive.key ctxLive.iv ct = some helloBytes ∧
      ∀ bufsz, 0 < bufsz →
        ∃ k, encrypt_file_loop toyCipher noFileFaults bufsz (helloBytes.length + 1) 0
            (EVP_EncryptInit_ex ctxLive.key ctxLive.iv) helloBytes [] =
          some { ok := true,
                 st := (EVP_EncryptUpdate toyCipher
                          (EVP_EncryptInit_ex ctxLive.key ctxLive.iv) helloBytes).1,
                 out := (EVP_EncryptUpdate toyCipher
                          (EVP_EncryptInit_ex ctxLive.key ctxLive.iv) helloBytes).2,
                 calls := k } :=
  C2_file_round_trip toyCipher toyCipher_inverts fsHello "hello.txt" "hello.txt.tmp_encrypted"
    ctxLive { kind := NodeKind.regular, data := helloBytes } (by decide) (by decide)

/-- C8: when no I/O or cipher call fails, `crypto_encrypt_file` returns
`ETDK_SUCCESS` and the output file holds exactly the CBC ciphertext of the input
followed by its padding, a function of key, IV and input alone, with nothing in
front and no IV stored; its length is `16 * (N / 16 + 1)` for an input of `N`
bytes. -/
theorem C8_file_ciphertext_length_and_format (C : BlockCipher) (fs : FS) (inp outp : String)
    (x : crypto_context_t) (node : Node) (hin : fs inp = some node) (hne : inp ≠ outp) :
    ∃ fs1 : FS,
      crypto_encrypt_file C noFileFaults fs (some inp) (some outp) (some x) =
        some (ETDK_SUCCESS, fs1) ∧
      (fs1 outp).map Node.data = some (cbc_encrypt_padded C x.key x.iv node.data) ∧
      (cbc_encrypt_padded C x.key x.iv node.data).length = 16 * (node.data.length / 16 + 1) ∧
      ∀ q, q ≠ outp → fs1 q = fs q := by
  refine ⟨_, crypto_encrypt_file_noFaults C fs inp outp x node hin hne, ?_,
    length_cbc_encrypt_padded C x.key x.iv node.data, ?_⟩
  · rw [FS.put_same]
    rfl
  · intro q hq
    exact FS.put_other _ _ _ _ hq

/-- C8, the concrete scenario: the 5-byte file "HELLO" under an all-zero key and
IV gives an output file of exactly 16 bytes. -/
theorem C8_file_ciphertext_length_and_format_witness :
    ∃ fs1 : FS,
      crypto_encrypt_file toyCipher noFileFaults fsHello (some "hello.txt")
          (some "hello.txt.tmp_encrypted") (some crypto_context_t.zeroed) =
        some (ETDK_SUCCESS, fs1) ∧
      (fs1 "hello.txt.tmp_encrypted").map Node.data =
        some (cbc_encrypt_padded toyCipher (Buf.fill 32 0) (Buf.fill 16 0) helloBytes) ∧
      (cbc_encrypt_padded toyCipher (Buf.fill 32 0) (Buf.fill 16 0) helloBytes).length = 16 ∧
      ∀ q, q ≠ "hello.txt.tmp_encrypted" → fs1 q = fsHello q :=
  C8_file_ciphertext_length_and_format toyCipher fsHello "hello.txt" "hello.txt.tmp_encrypted"
    crypto_context_t.zeroed { kind := NodeKind.regular, data := helloBytes }
    (by decide) (by decide)

/-- Whatever fails, `crypto_encrypt_file` returns, and it leaves every file other
than the output file as it was. -/
theorem crypto_encrypt_file_total (C : BlockCipher) (flt : FileFaults) (fs : FS)
    (inp outp : Option String) (ctx : Option crypto_context_t) :
    ∃ (rc : Int) (fs1 : FS), crypto_encrypt_file C flt fs inp outp ctx = some (rc, fs1) ∧
      ∀ q, outp ≠ some q → fs1 q = fs q := by
  cases inp with
  | none => exact ⟨ETDK_ERROR_CRYPTO, fs, by simp [crypto_encrypt_file], fun _ _ => rfl⟩
  | some i =>
  cases outp with
  | none => exact ⟨ETDK_ERROR_CRYPTO, fs, by simp [crypto_encrypt_file], fun _ _ => rfl⟩
  | some o =>
  cases ctx with
  | none => exact ⟨ETDK_ERROR_CRYPTO, fs, by simp [crypto_encrypt_file], fun _ _ => rfl⟩
  | some x =>
    have hput : ∀ (n m : Option Node) (q : String), some o ≠ some q →
        ((fs.put o n).put o m) q = fs q := by
      intro n m q hq
      have hq1 : q ≠ o := fun h => hq (by rw [h])
      rw [FS.put_other _ _ _ _ hq1, FS.put_other _ _ _ _ hq1]
    have hput1 : ∀ (n : Option Node) (q : String), some o ≠ some q → (fs.put o n) q = fs q := by
      intro n q hq
      have hq1 : q ≠ o := fun h => hq (by rw [h])
      rw [FS.put_other _ _ _ _ hq1]
    have key : ∀ rest : List Nat, ∃ e, encrypt_file_loop C flt 4096 (rest.length + 1) 0
        (EVP_EncryptInit_ex x.key x.iv) rest [] = some e :=
      fun rest => encrypt_file_loop_total C flt 4096 _ 0 _ rest [] (by omega)
    simp only [crypto_encrypt_file]
    split
    · exact ⟨_, fs, rfl, fun _ _ => rfl⟩
    · split
      · exact ⟨_, fs, rfl, fun _ _ => rfl⟩
      · split
        · exact ⟨_, _, rfl, hput1 _⟩
        · split
          · exact ⟨_, _, rfl, hput1 _⟩
          · obtain ⟨e, he⟩ := key ((Option.map Node.data ((fs.put o (some
              ⟨(Option.map Node.kind (fs o)).getD NodeKind.regular, []⟩)) i)).getD [])
            rw [he]
            simp only []
            split
            · exact ⟨_, _, rfl, hput _ _⟩
            · split
              · exact ⟨_, _, rfl, hput _ _⟩
              · exact ⟨_, _, rfl, hput _ _⟩

/-! ## `crypto_encrypt_device` -/

theorem length_pwrite (data : List Nat) (pos : Nat) (bytes : List Nat) :
    (pwrite data pos bytes).length =
      if bytes.length = 0 then data.length else max data.length (pos + bytes.length) := by
  unfold pwrite
  by_cases h : bytes = []
  · simp [h]
  · have hl : bytes.length ≠ 0 := fun h0 => h (List.eq_nil_of_length_eq_zero h0)
    simp only [h, if_false, hl, List.length_append, List.length_take, List.length_replicate,
      List.length_drop]
    omega

/-- The device loop always ends: every iteration either writes a block, which
brings the position nearer to the end of the device, or adds to the pending
bytes of the cipher, of which there are at most 15. -/
theorem encrypt_device_loop_total (C : BlockCipher) (flt : DeviceFaults) (chunk : Nat) :
    ∀ (fuel i : Nat) (s : DeviceState),
      16 * (s.data.length - s.pos) + (15 - s.st.buf.length) < fuel →
      ∃ r, encrypt_device_loop C flt chunk fuel i s = some r := by
  intro fuel
  induction fuel with
  | zero => intro i s h; omega
  | succ fuel ih =>
    intro i s h
    simp only [encrypt_device_loop]
    split
    · exact ⟨_, rfl⟩
    · rename_i hr
      split
      · exact ⟨_, rfl⟩
      · split
        · exact ⟨_, rfl⟩
        · rename_i hw
          apply ih
          have hle := fread_length_le (flt.read i) chunk (s.data.drop s.pos)
          rw [List.length_drop] at hle
          have hout := EVP_EncryptUpdate_out_length C s.st
            (fread (flt.read i) chunk (s.data.drop s.pos))
          have hbuf := EVP_EncryptUpdate_buf_length C s.st
            (fread (flt.read i) chunk (s.data.drop s.pos))
          simp only [ne_eq, Decidable.not_not] at hw
          simp only [length_pwrite, hw, hout, hbuf]
          by_cases hs : flt.seek i = true
          · simp only [hs, if_true]
            split <;> omega
          · simp only [hs, if_false, Bool.false_eq_true]
            split <;> omega

/-- Whatever fails, `crypto_encrypt_device` returns. -/
theorem crypto_encrypt_device_total (C : BlockCipher) (flt : DeviceFaults) (fs : FS)
    (path : Option String) (ctx : Option crypto_context_t) :
    ∃ run, crypto_encrypt_device C flt fs path ctx = some run := by
  cases path with
  | none => simp [crypto_encrypt_device]
  | some p =>
  cases ctx with
  | none => simp [crypto_encrypt_device]
  | some x =>
    simp only [crypto_encrypt_device]
    split
    · exact ⟨_, rfl⟩
    · rename_i node hnode
      split
      · exact ⟨_, rfl⟩
      · split
        · exact ⟨_, rfl⟩
        · split
          · exact ⟨_, rfl⟩
          · split
            · exact ⟨_, rfl⟩
            · obtain ⟨r, hr⟩ := encrypt_device_loop_total C flt (1024 * 1024)
                (16 * node.data.length + 16) 0
                { data := node.data, pos := 0, st := EVP_EncryptInit_ex x.key x.iv,
                  processed := 0, log := [] } (by simp [EVP_EncryptInit_ex])
              rw [hr]
              exact ⟨_, rfl⟩

theorem EVP_EncryptUpdate_aligned (C : BlockCipher) (st : EVP_CIPHER_CTX) (inp : List Nat)
    (hb : st.buf = []) (h : inp.length % 16 = 0) :
    EVP_EncryptUpdate C st inp =
      ({ st with chain := (cbc_encrypt C st.key (inp.length / 16) st.chain inp).2, buf := [] },
        (cbc_encrypt C st.key (inp.length / 16) st.chain inp).1) := by
  have h16 : 16 * (inp.length / 16) = inp.length := by omega
  simp only [EVP_EncryptUpdate, hb, List.nil_append, h16, List.drop_length]

theorem pwrite_inside (data : List Nat) (pos : Nat) (bytes : List Nat) (hp : pos ≤ data.length)
    (hb : bytes ≠ []) :
    pwrite data pos bytes = data.take pos ++ bytes ++ data.drop (pos + bytes.length) := by
  simp only [pwrite, hb, if_false]
  rw [List.take_append_of_le_length hp]

/-- The device loop on a device whose unread part is a whole number of blocks,
with a chunk size that is a whole number of blocks and with nothing failing:
the unread part is replaced by its CBC ciphertext, and every chunk is written
where it was read, in its full length. -/
theorem encrypt_device_loop_aligned (C : BlockCipher) (chunk : Nat) (hc : 0 < chunk)
    (hc16 : chunk % 16 = 0) :
    ∀ (fuel i : Nat) (s : DeviceState), s.data.length - s.pos < fuel →
      s.pos ≤ s.data.length → (s.data.length - s.pos) % 16 = 0 → s.st.buf = [] →
      s.processed < 2 ^ 64 →
      ∃ s1, encrypt_device_loop C noDeviceFaults chunk fuel i s = some (ETDK_SUCCESS, s1) ∧
        s1.data = s.data.take s.pos ++
          (cbc_encrypt C s.st.key ((s.data.length - s.pos) / 16) s.st.chain
            (s.data.drop s.pos)).1 ∧
        s1.processed = (s.processed + (s.data.length - s.pos)) % 2 ^ 64 ∧
        ∀ e ∈ s1.log, e ∈ s.log ∨ (e.write_off = e.read_off ∧ e.write_len = e.read_len) := by
  intro fuel
  induction fuel with
  | zero => intro i s h; omega
  | succ fuel ih =>
    intro i s hfuel hpos hal hbuf hproc
    obtain ⟨data, pos, st, processed, log⟩ := s
    simp only at hfuel hpos hal hbuf hproc
    have hr : noDeviceFaults.read i = none := rfl
    have hu : noDeviceFaults.update i = false := rfl
    have hs : noDeviceFaults.seek i = false := rfl
    have hw : noDeviceFaults.write i = none := rfl
    simp only [encrypt_device_loop, hr, hu, hs, hw, fread, fwrite]
    have hsplit : data.drop pos = (data.drop pos).take chunk ++ data.drop (pos + chunk) := by
      rw [← List.drop_drop, List.take_append_drop]
    generalize hinb : (data.drop pos).take chunk = inbuf at hsplit ⊢
    have hinlen : inbuf.length = min chunk (data.length - pos) := by
      rw [← hinb]; simp only [List.length_take, List.length_drop]
    by_cases h0 : inbuf.length = 0
    · have hend : data.length - pos = 0 := by omega
      have hlen : data.length ≤ pos := by omega
      refine ⟨⟨data, pos, st, processed, log⟩, by simp [h0], ?_, ?_, fun e he => Or.inl he⟩
      · simp only [hend, List.take_of_length_le hlen]
        simp [cbc_encrypt]
      · simp only [hend, Nat.add_zero, Nat.mod_eq_of_lt hproc]
    · have hal1 : inbuf.length % 16 = 0 := by
        rw [hinlen]
        rcases Nat.le_total chunk (data.length - pos) with hle | hle
        · rw [Nat.min_eq_left hle]; exact hc16
        · rw [Nat.min_eq_right hle]; exact hal
      rw [EVP_EncryptUpdate_aligned C st inbuf hbuf hal1]
      have hpre : cbc_encrypt C st.key (inbuf.length / 16) st.chain (data.drop pos) =
          cbc_encrypt C st.key (inbuf.length / 16) st.chain inbuf := by
        rw [hsplit]
        exact cbc_encrypt_prefix _ _ _ _ _ _ (by omega)
      generalize henc : cbc_encrypt C st.key (inbuf.length / 16) st.chain inbuf = enc at hpre ⊢
      have houtlen : enc.1.length = inbuf.length := by
        rw [← henc, length_cbc_encrypt]; omega
      have hne : enc.1 ≠ [] := by
        intro hnil
        rw [hnil] at houtlen
        simp only [List.length_nil] at houtlen
        omega
      simp only [h0, if_false, Bool.false_eq_true, ne_eq, not_true_eq_false]
      rw [pwrite_inside _ _ _ hpos hne, houtlen]
      have hlenall : (data.take pos ++ enc.1 ++ data.drop (pos + inbuf.length)).length =
          data.length := by
        simp only [List.length_append, List.length_take, List.length_drop, houtlen]
        omega
      have hih := ih (i + 1)
        ⟨data.take pos ++ enc.1 ++ data.drop (pos + inbuf.length), pos + inbuf.length,
          { st with chain := enc.2, buf := [] }, (processed + inbuf.length) % 2 ^ 64,
          log ++ [⟨pos, inbuf.length, pos, inbuf.length⟩]⟩
      simp only [hlenall] at hih
      obtain ⟨s1, hrun, hdata, hprocessed, hlog⟩ := hih (by omega) (by omega) (by omega)
        trivial (Nat.mod_lt _ (by decide))
      refine ⟨s1, hrun, ?_, ?_, ?_⟩
      · rw [hdata]
        have hlen1 : (data.take pos ++ enc.1).length = pos + inbuf.length := by
          simp only [List.length_append, List.length_take, houtlen]
          omega
        rw [List.take_left' hlen1, List.drop_left' hlen1]
        have hn : (data.length - pos) / 16 =
            inbuf.length / 16 + (data.length - (pos + inbuf.length)) / 16 := by
          omega
        have h16 : 16 * (inbuf.length / 16) = inbuf.length := by omega
        rw [hn, cbc_encrypt_add, hpre, h16, List.drop_drop, List.append_assoc]
      · rw [hprocessed]
        omega
      · intro e he
        rcases hlog e he with h1 | h1
        · simp only [List.mem_append, List.mem_singleton] at h1
          rcases h1 with h2 | h2
          · exact Or.inl h2
          · right
            rw [h2]
            exact ⟨rfl, rfl⟩
        · exact Or.inr h1

/-- The result of `crypto_encrypt_device` on a device of a whole number of blocks
when nothing fails. -/
theorem crypto_encrypt_device_aligned (C : BlockCipher) (fs : FS) (p : String)
    (x : crypto_context_t) (node : Node) (hdev : fs p = some node)
    (hal : node.data.length % 16 = 0) :
    ∃ run, crypto_encrypt_device C noDeviceFaults fs (some p) (some x) = some run ∧
      run.rc = ETDK_SUCCESS ∧
      run.fs = fs.put p (some ⟨node.kind,
        (cbc_encrypt C x.key (node.data.length / 16) x.iv node.data).1⟩) ∧
      run.processed = node.data.length % 2 ^ 64 ∧
      ∀ e ∈ run.log, e.write_off = e.read_off ∧ e.write_len = e.read_len := by
  have hloop := encrypt_device_loop_aligned C 1048576 (by decide) (by decide)
    (16 * node.data.length + 16) 0 ⟨node.data, 0, EVP_EncryptInit_ex x.key x.iv, 0, []⟩
  simp only [Nat.sub_zero, List.take_zero, List.drop_zero, List.nil_append, Nat.zero_add,
    List.not_mem_nil, false_or] at hloop
  obtain ⟨s1, hrun, hdata, hprocessed, hlog⟩ :=
    hloop (by omega) (Nat.zero_le _) hal rfl (by decide)
  have ho : noDeviceFaults.open_device = false := rfl
  have hq : noDeviceFaults.size_query = false := rfl
  have h1 : noDeviceFaults.ctx_new = false := rfl
  have h2 : noDeviceFaults.enc_init = false := rfl
  have h3 : noDeviceFaults.malloc = false := rfl
  refine ⟨⟨ETDK_SUCCESS, fs.put p (some { node with data := s1.data }), s1.processed, s1.log⟩,
    ?_, rfl, ?_, hprocessed, hlog⟩
  · simp [crypto_encrypt_device, ho, hq, h1, h2, h3, hdev, platform_get_device_size, hrun]
  · simp only [hdata]
    rfl

/-- C3: for a device whose length is a multiple of 16, with nothing failing,
`crypto_encrypt_device` returns `ETDK_SUCCESS`, every chunk's ciphertext is
written at the offset the chunk was read from and in the chunk's length, the
device keeps its length, and its content decrypted in CBC mode with the same key
and IV and no padding step is the original content. -/
theorem C3_device_round_trip_aligned (C : BlockCipher) (hC : C.Inverts) (fs : FS) (p : String)
    (x : crypto_context_t) (node : Node) (hdev : fs p = some node)
    (hal : node.data.length % 16 = 0) :
    ∃ (run : DeviceRun) (ct : List Nat),
      crypto_encrypt_device C noDeviceFaults fs (some p) (some x) = some run ∧
      run.rc = ETDK_SUCCESS ∧
      (∀ e ∈ run.log, e.write_off = e.read_off ∧ e.write_len = e.read_len) ∧
      run.fs p = some { kind := node.kind, data := ct } ∧
      ct.length = node.data.length ∧
      decrypt_device C x.key x.iv ct = node.data ∧
      ∀ q, q ≠ p → run.fs q = fs q := by
  obtain ⟨run, hrun, hrc, hfs, _, hlog⟩ := crypto_encrypt_device_aligned C fs p x node hdev hal
  have h16 : 16 * (node.data.length / 16) = node.data.length := by omega
  have hlen : (cbc_encrypt C x.key (node.data.length / 16) x.iv node.data).1.length =
      node.data.length := by
    rw [length_cbc_encrypt, h16]
  refine ⟨run, _, hrun, hrc, hlog, ?_, hlen, ?_, ?_⟩
  · rw [hfs, FS.put_same]
  · simp only [decrypt_device, hlen]
    rw [cbc_decrypt_encrypt C hC _ _ _ _ (by omega), h16, List.take_length]
  · intro q hq
    rw [hfs, FS.put_other _ _ _ _ hq]

/-- C3, a concrete run: a block device of 64 bytes encrypted with the stand-in
cipher. -/
theorem C3_device_round_trip_aligned_witness :
    ∃ (run : DeviceRun) (ct : List Nat),
      crypto_encrypt_device toyCipher noDeviceFaults fsDevice (some "/dev/sdb")
          (some ctxLive) = some run ∧
      run.rc = ETDK_SUCCESS ∧
      (∀ e ∈ run.log, e.write_off = e.read_off ∧ e.write_len = e.read_len) ∧
      run.fs "/dev/sdb" = some { kind := NodeKind.block, data := ct } ∧
      ct.length = devData.length ∧
      decrypt_device toyCipher ctxLive.key ctxLive.iv ct = devData ∧
      ∀ q, q ≠ "/dev/sdb" → run.fs q = fsDevice q :=
  C3_device_round_trip_aligned toyCipher toyCipher_inverts fsDevice "/dev/sdb" ctxLive
    { kind := NodeKind.block, data := devData } (by decide) (by decide)

theorem pwrite_nil (data : List Nat) (pos : Nat) : pwrite data pos [] = data := by
  simp [pwrite]

theorem pwrite_zero (data out : List Nat) : pwrite data 0 out = out ++ data.drop out.length := by
  by_cases h : out = []
  · simp [h, pwrite]
  · simp [pwrite, h]

/-- The device loop once only a partial block is left unread: with `E` the part
already encrypted and `T` the partial block, every iteration reads `T` again
and adds it to the pending bytes of the cipher, until these make up a block,
which is then written over `T` and past the end of the device. -/
theorem encrypt_device_loop_tail (C : BlockCipher) (chunk : Nat) (E T : List Nat)
    (ht0 : 0 < T.length) (ht : T.length < 16) (htc : T.length ≤ chunk) :
    ∀ (fuel i : Nat) (st : EVP_CIPHER_CTX) (processed : Nat) (log : List ChunkRecord),
      st.buf.length < 16 → 17 - st.buf.length < fuel →
      processed + 31 < 2 ^ 64 + st.buf.length →
      ∃ s1, encrypt_device_loop C noDeviceFaults chunk fuel i
          ⟨E ++ T, E.length, st, processed, log⟩ = some (ETDK_SUCCESS, s1) ∧
        s1.data.length = E.length + 16 ∧
        s1.processed + st.buf.length = processed + 16 + s1.st.buf.length := by
  intro fuel
  induction fuel with
  | zero => intro i st processed log _ h; omega
  | succ fuel ih =>
    intro i st processed log hb hfuel hproc
    have hr : ∀ j, noDeviceFaults.read j = none := fun _ => rfl
    have hu : ∀ j, noDeviceFaults.update j = false := fun _ => rfl
    have hs : ∀ j, noDeviceFaults.seek j = false := fun _ => rfl
    have hw : ∀ j, noDeviceFaults.write j = none := fun _ => rfl
    have hread : ((E ++ T).drop E.length).take chunk = T := by
      rw [List.drop_left' rfl, List.take_of_length_le htc]
    have hT0 : T.length ≠ 0 := by omega
    simp only [encrypt_device_loop, hr, hu, hs, hw, fread, fwrite, hread, hT0, if_false,
      Bool.false_eq_true, ne_eq, not_true_eq_false]
    by_cases hfull : st.buf.length + T.length < 16
    · -- the pending bytes do not yet make a block: nothing is written
      have hn : (st.buf ++ T).length / 16 = 0 := by
        simp only [List.length_append]; omega
      have hupd : EVP_EncryptUpdate C st T = ({ st with buf := st.buf ++ T }, []) := by
        simp only [EVP_EncryptUpdate, hn, cbc_encrypt, Nat.mul_zero, List.drop_zero]
      rw [hupd]
      simp only [pwrite_nil, List.length_nil, Nat.add_zero]
      have hmod : (processed + T.length) % 2 ^ 64 = processed + T.length :=
        Nat.mod_eq_of_lt (by omega)
      rw [hmod]
      obtain ⟨s1, hrun, hlen, hp⟩ := ih (i + 1) { st with buf := st.buf ++ T }
        (processed + T.length) (log ++ [⟨E.length, T.length, E.length, 0⟩])
        (by simp only [List.length_append]; omega)
        (by simp only [List.length_append]; omega)
        (by simp only [List.length_append]; omega)
      refine ⟨s1, hrun, hlen, ?_⟩
      simp only [List.length_append] at hp
      omega
    · -- the pending bytes make a block: it is written at the position of `T`
      have hn : (st.buf ++ T).length / 16 = 1 := by
        simp only [List.length_append]; omega
      obtain ⟨fuel1, rfl⟩ : ∃ f, fuel = f + 1 := ⟨fuel - 1, by omega⟩
      have hout := EVP_EncryptUpdate_out_length C st T
      have hbuf := EVP_EncryptUpdate_buf_length C st T
      generalize EVP_EncryptUpdate C st T = r at hout hbuf ⊢
      have hout16 : r.2.length = 16 := by omega
      have hne : r.2 ≠ [] := by
        intro h0; rw [h0] at hout16; simp at hout16
      have hdata : pwrite (E ++ T) E.length r.2 = E ++ r.2 := by
        rw [pwrite_inside _ _ _ (by simp) hne, List.take_left' rfl,
          List.drop_of_length_le (by simp only [List.length_append]; omega), List.append_nil]
      rw [hdata, hout16]
      have hmod : (processed + T.length) % 2 ^ 64 = processed + T.length :=
        Nat.mod_eq_of_lt (by omega)
      have hend : ((E ++ r.2).drop (E.length + 16)).take chunk = [] := by
        rw [List.drop_of_length_le (by simp only [List.length_append]; omega)]
        exact List.take_nil
      simp only [encrypt_device_loop, hr, fread, hend, List.length_nil, if_true, hmod]
      refine ⟨_, rfl, ?_, ?_⟩
      · simp only [List.length_append, hout16]
      · simp only []
        omega


/-- The result of `crypto_encrypt_device` on a target that fits into one chunk and
whose length is not a multiple of 16, with nothing failing: `ETDK_SUCCESS`, a
target that has grown to the next multiple of 16, and a `processed` count of at
least that size. -/
theorem crypto_encrypt_device_unaligned (C : BlockCipher) (fs : FS) (p : String)
    (x : crypto_context_t) (node : Node) (L : Nat) (hdev : fs p = some node)
    (hL : node.data.length = L) (hodd : L % 16 ≠ 0) (hsmall : L ≤ 1048576) :
    ∃ (run : DeviceRun) (nd : Node),
      crypto_encrypt_device C noDeviceFaults fs (some p) (some x) = some run ∧
      run.rc = ETDK_SUCCESS ∧ run.fs p = some nd ∧
      nd.data.length = 16 * (L / 16 + 1) ∧ 16 * (L / 16 + 1) ≤ run.processed := by
  subst hL
  have ho : noDeviceFaults.open_device = false := rfl
  have hq : noDeviceFaults.size_query = false := rfl
  have h1 : noDeviceFaults.ctx_new = false := rfl
  have h2 : noDeviceFaults.enc_init = false := rfl
  have h3 : noDeviceFaults.malloc = false := rfl
  have hr : ∀ j, noDeviceFaults.read j = none := fun _ => rfl
  have hu : ∀ j, noDeviceFaults.update j = false := fun _ => rfl
  have hs : ∀ j, noDeviceFaults.seek j = false := fun _ => rfl
  have hw : ∀ j, noDeviceFaults.write j = none := fun _ => rfl
  have hL0 : node.data.length ≠ 0 := by omega
  have hfuel : 16 * node.data.length + 16 = (16 * node.data.length + 15) + 1 := by omega
  have hread : (node.data.drop 0).take 1048576 = node.data := by
    rw [List.drop_zero, List.take_of_length_le hsmall]
  have hout := EVP_EncryptUpdate_out_length C (EVP_EncryptInit_ex x.key x.iv) node.data
  have hbuf := EVP_EncryptUpdate_buf_length C (EVP_EncryptInit_ex x.key x.iv) node.data
  have hbufeq : (EVP_EncryptUpdate C (EVP_EncryptInit_ex x.key x.iv) node.data).1.buf =
      node.data.drop (EVP_EncryptUpdate C (EVP_EncryptInit_ex x.key x.iv) node.data).2.length := by
    rw [hout]
    simp [EVP_EncryptUpdate, EVP_EncryptInit_ex]
  generalize hr0 : EVP_EncryptUpdate C (EVP_EncryptInit_ex x.key x.iv) node.data = r
    at hout hbuf hbufeq
  simp only [EVP_EncryptInit_ex, List.length_nil, Nat.zero_add] at hout hbuf
  have htail := encrypt_device_loop_tail C 1048576 r.2 (node.data.drop r.2.length)
    (by simp only [List.length_drop]; omega) (by simp only [List.length_drop]; omega)
    (by simp only [List.length_drop]; omega) (16 * node.data.length + 15) 1 r.1
    (node.data.length % 2 ^ 64)
    [⟨0, node.data.length, 0, r.2.length⟩]
    (by omega) (by omega) (by omega)
  obtain ⟨s1, hrun, hlen, hp⟩ := htail
  refine ⟨⟨ETDK_SUCCESS, fs.put p (some { node with data := s1.data }), s1.processed, s1.log⟩,
    { node with data := s1.data }, ?_, rfl, FS.put_same _ _ _, ?_, ?_⟩
  · simp only [crypto_encrypt_device, ho, hq, h1, h2, h3, hdev, platform_get_device_size,
      Bool.false_eq_true, if_false, ne_eq, not_true_eq_false, Nat.reduceMul, hfuel]
    rw [encrypt_device_loop]
    simp only [hr, hu, hs, hw, fread, fwrite, hread, hL0, if_false,
      Bool.false_eq_true, ne_eq, not_true_eq_false, pwrite_zero, Nat.zero_add,
      List.nil_append]
    rw [hr0, hrun]
  · simp only [hlen, hout]
    omega
  · have hmod : node.data.length % 2 ^ 64 = node.data.length := Nat.mod_eq_of_lt (by omega)
    show 16 * (node.data.length / 16 + 1) ≤ s1.processed
    omega


theorem length_imageData : imageData.length = 4097 := by
  rw [imageData, List.length_replicate]

/-- C7, the failing run of the claim's own example: on a simulated device of 4097
bytes, with nothing failing, `crypto_encrypt_device` returns `ETDK_SUCCESS`,
leaves a target of 4112 bytes and reports at least 4112 bytes as processed. -/
theorem C7_device_of_4097_bytes_grows :
    ∃ (run : DeviceRun) (nd : Node),
      crypto_encrypt_device toyCipher noDeviceFaults fsImage4097 (some "disk.img")
        (some ctxLive) = some run ∧
      run.rc = ETDK_SUCCESS ∧ run.fs "disk.img" = some nd ∧
      nd.data.length = 4112 ∧ 4112 ≤ run.processed := by
  exact crypto_encrypt_device_unaligned toyCipher fsImage4097 "disk.img" ctxLive
    { kind := NodeKind.regular, data := imageData } 4097 (by simp [fsImage4097])
    length_imageData (by decide) (by decide)

/-- The same defect on a simulated device of 17 bytes, traced in full: with nothing failing,
`crypto_encrypt_device` returns `ETDK_SUCCESS` after 16 iterations; it has read
the last byte 16 times, reports 32 bytes as processed, has written a block at the
offsets 16 to 31 and leaves a target of 32 bytes. -/
theorem device_of_17_bytes_grows :
    (crypto_encrypt_device toyCipher noDeviceFaults fsImage17 (some "disk.img")
        (some ctxLive)).map
        (fun r => (r.rc, r.processed, (r.fs "disk.img").map (fun n => n.data.length),
          r.log.length, r.log.getLast?)) =
      some (ETDK_SUCCESS, 32, some 32, 16,
        some { read_off := 16, read_len := 1, write_off := 16, write_len := 16 }) := by
  decide

/-! ## `main` -/

theorem crypto_init_some (rng : RandSource) (c : Nat) (x : crypto_context_t) :
    ∃ y rc c1, crypto_init rng c (some x) = (some y, rc, c1) := by
  simp only [crypto_init, crypto_generate_key_some]
  by_cases h1 : (rng c).ret = 1
  · simp only [h1, if_true]
    split_ifs <;> exact ⟨_, _, _, rfl⟩
  · simp only [h1, if_false]
    split_ifs <;> exact ⟨_, _, _, rfl⟩

theorem main_fail_shape (env : MainEnv) (c : Nat) (y : crypto_context_t) (fs : FS)
    (trace : List Event) :
    (main_fail env c (some y) fs trace).exit_code = 1 ∧
    (main_fail env c (some y) fs trace).fs = fs ∧
    (main_fail env c (some y) fs trace).trace =
      trace ++ [Event.unlock, Event.wipe, Event.cleanup] := by
  simp [main_fail, cleanup_events]

theorem main_finish_shape (env : MainEnv) (c : Nat) (y : crypto_context_t) (fs : FS)
    (trace : List Event) :
    (main_finish env c (some y) fs trace).exit_code = 0 ∧
    (main_finish env c (some y) fs trace).fs = fs ∧
    (main_finish env c (some y) fs trace).trace =
      trace ++ [Event.display y.key.val y.iv.val, Event.wipe, Event.unlock, Event.wipe,
        Event.cleanup] := by
  simp [main_finish, crypto_secure_wipe_key_some, crypto_display_key, cleanup_events,
    ETDK_SUCCESS]

/-- Every run of `main` returns, and its exit code and events follow one of
eight patterns. -/
theorem main_shape (env : MainEnv) (argv : List String) :
    ∃ r, main env argv = some r ∧
      ((r.trace = []) ∨
       (∃ rc, rc ≠ ETDK_SUCCESS ∧ r.exit_code = 1 ∧ r.trace = [Event.init rc]) ∨
       (∃ rc, rc ≠ ETDK_SUCCESS ∧ r.exit_code = 1 ∧
          r.trace = [Event.init ETDK_SUCCESS, Event.lock, Event.encrypt_device rc,
            Event.unlock, Event.wipe, Event.cleanup]) ∨
       (∃ k v, r.exit_code = 0 ∧
          r.trace = [Event.init ETDK_SUCCESS, Event.lock, Event.encrypt_device ETDK_SUCCESS,
            Event.display k v, Event.wipe, Event.unlock, Event.wipe, Event.cleanup]) ∨
       (∃ rc, rc ≠ ETDK_SUCCESS ∧ r.exit_code = 1 ∧
          r.trace = [Event.init ETDK_SUCCESS, Event.lock, Event.encrypt_file rc,
            Event.unlock, Event.wipe, Event.cleanup]) ∨
       (∃ rc rc1, rc ≠ 0 ∧ r.exit_code = 1 ∧
          r.trace = [Event.init ETDK_SUCCESS, Event.lock, Event.encrypt_file ETDK_SUCCESS,
            Event.remove_original rc, Event.remove_temp rc1,
            Event.unlock, Event.wipe, Event.cleanup]) ∨
       (∃ rc rc1, rc ≠ 0 ∧ r.exit_code = 1 ∧
          r.trace = [Event.init ETDK_SUCCESS, Event.lock, Event.encrypt_file ETDK_SUCCESS,
            Event.remove_original 0, Event.rename_temp rc, Event.remove_temp rc1,
            Event.unlock, Event.wipe, Event.cleanup]) ∨
       (∃ k v, r.exit_code = 0 ∧
          r.trace = [Event.init ETDK_SUCCESS, Event.lock, Event.encrypt_file ETDK_SUCCESS,
            Event.remove_original 0, Event.rename_temp 0,
            Event.display k v, Event.wipe, Event.unlock, Event.wipe, Event.cleanup])) := by
  rcases argv with _ | ⟨a0, _ | ⟨target, _ | ⟨a2, rest⟩⟩⟩
  · exact ⟨_, rfl, Or.inl rfl⟩
  · exact ⟨_, rfl, Or.inl rfl⟩
  · simp only [main]
    split
    · exact ⟨_, rfl, Or.inl rfl⟩
    split
    · exact ⟨_, rfl, Or.inl rfl⟩
    split
    · exact ⟨_, rfl, Or.inl rfl⟩
    obtain ⟨y, rc, c1, hi⟩ := crypto_init_some env.rng 0 env.ctx0
    rw [hi]
    simp only []
    split
    · rename_i hrc
      exact ⟨_, rfl, Or.inr (Or.inl ⟨rc, hrc, rfl, rfl⟩)⟩
    rename_i hrc
    simp only [ne_eq, Decidable.not_not] at hrc
    subst hrc
    split
    · obtain ⟨run, hrun⟩ := crypto_encrypt_device_total env.C env.device_faults env.fs
        (some target) (some y)
      rw [hrun]
      simp only []
      split
      · rename_i hr
        refine ⟨_, rfl, Or.inr (Or.inr (Or.inl ⟨run.rc, hr, ?_, ?_⟩))⟩
        · exact (main_fail_shape _ _ _ _ _).1
        · rw [(main_fail_shape _ _ _ _ _).2.2]; rfl
      · rename_i hr
        simp only [ne_eq, Decidable.not_not] at hr
        refine ⟨_, rfl, Or.inr (Or.inr (Or.inr (Or.inl ⟨y.key.val, y.iv.val, ?_, ?_⟩)))⟩
        · exact (main_finish_shape _ _ _ _ _).1
        · rw [(main_finish_shape _ _ _ _ _).2.2, hr]; rfl
    · obtain ⟨rc, fs1, hrun, -⟩ := crypto_encrypt_file_total env.C env.file_faults env.fs
        (some target) (some (snprintf 512 (target ++ ".tmp_encrypted"))) (some y)
      rw [hrun]
      simp only []
      split
      · rename_i hr
        refine ⟨_, rfl, Or.inr (Or.inr (Or.inr (Or.inr (Or.inl ⟨rc, hr, ?_, ?_⟩))))⟩
        · exact (main_fail_shape _ _ _ _ _).1
        · rw [(main_fail_shape _ _ _ _ _).2.2]; rfl
      rename_i hr
      simp only [ne_eq, Decidable.not_not] at hr
      subst hr
      split
      · rename_i h1
        refine ⟨_, rfl, Or.inr (Or.inr (Or.inr (Or.inr (Or.inr (Or.inl ⟨_, ?w, h1, ?a, ?b⟩)))))⟩
        case a => exact (main_fail_shape _ _ _ _ _).1
        case b => rw [(main_fail_shape _ _ _ _ _).2.2]; exact rfl
      rename_i h1
      simp only [ne_eq, Decidable.not_not] at h1
      split
      · rename_i h2
        refine ⟨_, rfl, Or.inr (Or.inr (Or.inr (Or.inr (Or.inr (Or.inr
          (Or.inl ⟨_, ?w2, h2, ?a2, ?b2⟩))))))⟩
        case a2 => exact (main_fail_shape _ _ _ _ _).1
        case b2 => rw [(main_fail_shape _ _ _ _ _).2.2, h1]; exact rfl
      rename_i h2
      simp only [ne_eq, Decidable.not_not] at h2
      refine ⟨_, rfl, Or.inr (Or.inr (Or.inr (Or.inr (Or.inr (Or.inr
          (Or.inr ⟨y.key.val, y.iv.val, ?_, ?_⟩))))))⟩
      · exact (main_finish_shape _ _ _ _ _).1
      · rw [(main_finish_shape _ _ _ _ _).2.2, h1, h2]; rfl
  · exact ⟨_, rfl, Or.inl rfl⟩

/-- In every run of `main` in which `crypto_init` succeeded, the key is wiped and
the context cleaned up before `main` returns. -/
theorem main_destroys_after_init (env : MainEnv) (argv : List String) :
    ∃ r, main env argv = some r ∧
      (Event.init ETDK_SUCCESS ∈ r.trace → Event.wipe ∈ r.trace ∧ Event.cleanup ∈ r.trace) := by
  obtain ⟨r, hr, hshape⟩ := main_shape env argv
  refine ⟨r, hr, ?_⟩
  rcases hshape with h | ⟨rc, hrc, _, h⟩ | ⟨rc, _, _, h⟩ | ⟨k0, v0, _, h⟩ |
    ⟨rc, _, _, h⟩ | ⟨rc, rc1, _, _, h⟩ | ⟨rc, rc1, _, _, h⟩ | ⟨k0, v0, _, h⟩
  · rw [h]; simp
  · rw [h]
    intro hm
    simp only [List.mem_singleton, Event.init.injEq] at hm
    exact absurd hm.symm hrc
  all_goals rw [h]; simp

theorem split_at_unique {α : Type} (P : α → Prop) :
    ∀ (l1 pre : List α) (x y : α) (post l2 : List α), (∀ e ∈ l1, ¬ P e) → (∀ e ∈ l2, ¬ P e) →
      P x → P y → pre ++ x :: post = l1 ++ y :: l2 → pre = l1 := by
  intro l1
  induction l1 with
  | nil =>
    intro pre x y post l2 _ h2 hx _ h
    cases pre with
    | nil => rfl
    | cons a pre1 =>
      exfalso
      simp only [List.nil_append, List.cons_append, List.cons.injEq] at h
      exact h2 x (by rw [← h.2]; simp) hx
  | cons b l1 ih =>
    intro pre x y post l2 h1 h2 hx hy h
    cases pre with
    | nil =>
      exfalso
      simp only [List.nil_append, List.cons_append, List.cons.injEq] at h
      exact h1 b (by simp) (h.1 ▸ hx)
    | cons a pre1 =>
      simp only [List.cons_append, List.cons.injEq] at h
      rw [h.1, ih pre1 x y post l2 (fun e he => h1 e (by simp [he])) h2 hx hy h.2]

theorem snprintf_temp_ne (target : String) (h : target.length ≠ 511) :
    snprintf 512 (target ++ ".tmp_encrypted") ≠ target := by
  intro heq
  have hd : (snprintf 512 (target ++ ".tmp_encrypted")).data.length = target.data.length := by
    rw [heq]
  simp only [snprintf, String.data_append, List.length_take, List.length_append] at hd
  have h14 : (".tmp_encrypted" : String).data.length = 14 := by decide
  rw [h14] at hd
  have hl : target.length = target.data.length := rfl
  omega

/-- C4, the failing run: the key draw succeeds, the IV draw fails.  `main` returns 1
after the single event `crypto_init`, with no wipe and no cleanup, and the context
it leaves still holds the 32 key bytes that were drawn. -/
theorem C4_init_failure_returns_without_wipe :
    (main envIvDrawFails ["etdk", "hello.txt"]).map
        (fun r => (r.exit_code, r.trace, r.ctx.map (fun c => c.key.val))) =
      some (1, [Event.init ETDK_ERROR_CRYPTO], some (List.range' 1 32)) := by
  decide


/-- C5: in every run of `main` the key is displayed at most once; it is
displayed exactly when the device encryption succeeded, or the file encryption
and both steps of the replacement succeeded; when the encryption, the remove or
the rename failed `main` returns 1 and nothing was displayed; and no wipe or
cleanup comes before the display. -/
theorem C5_display_before_destruction (env : MainEnv) (argv : List String) :
    ∃ r, main env argv = some r ∧
      r.trace.countP Event.isDisplay ≤ 1 ∧
      ((∃ k v, Event.display k v ∈ r.trace) ↔
        (Event.encrypt_device ETDK_SUCCESS ∈ r.trace ∨
          (Event.encrypt_file ETDK_SUCCESS ∈ r.trace ∧ Event.remove_original 0 ∈ r.trace ∧
            Event.rename_temp 0 ∈ r.trace))) ∧
      ((∃ rc, rc ≠ 0 ∧ (Event.encrypt_device rc ∈ r.trace ∨ Event.encrypt_file rc ∈ r.trace ∨
            Event.remove_original rc ∈ r.trace ∨ Event.rename_temp rc ∈ r.trace)) →
        r.exit_code = 1 ∧ ∀ k v, Event.display k v ∉ r.trace) ∧
      (∀ pre post k v, r.trace = pre ++ Event.display k v :: post →
        Event.wipe ∉ pre ∧ Event.cleanup ∉ pre) := by
  obtain ⟨r, hr, hshape⟩ := main_shape env argv
  refine ⟨r, hr, ?_⟩
  have nodisp : ∀ (t : List Event), (∀ e ∈ t, Event.isDisplay e = false) →
      ∀ pre post k v, t = pre ++ Event.display k v :: post →
        Event.wipe ∉ pre ∧ Event.cleanup ∉ pre := by
    intro t ht pre post k v h
    have hm : Event.display k v ∈ t := by rw [h]; simp
    have := ht _ hm
    simp [Event.isDisplay] at this
  have disp : ∀ (l1 l2 : List Event) (k0 v0 : List Nat),
      (∀ e ∈ l1, ¬ (Event.isDisplay e = true)) → (∀ e ∈ l2, ¬ (Event.isDisplay e = true)) →
      Event.wipe ∉ l1 → Event.cleanup ∉ l1 →
      ∀ pre post k v, l1 ++ Event.display k0 v0 :: l2 = pre ++ Event.display k v :: post →
        Event.wipe ∉ pre ∧ Event.cleanup ∉ pre := by
    intro l1 l2 k0 v0 h1 h2 hw hc pre post k v h
    have hpre := split_at_unique (fun e => Event.isDisplay e = true) l1 pre
      (Event.display k v) (Event.display k0 v0) post l2 h1 h2 rfl rfl h.symm
    rw [hpre]
    exact ⟨hw, hc⟩
  rcases hshape with h | ⟨rc, hrc, he, h⟩ | ⟨rc, hrc, he, h⟩ | ⟨k0, v0, he, h⟩ |
    ⟨rc, hrc, he, h⟩ | ⟨rc, rc1, hrc, he, h⟩ | ⟨rc, rc1, hrc, he, h⟩ | ⟨k0, v0, he, h⟩
  · rw [h]
    refine ⟨by simp, by simp, by simp, ?_⟩
    exact nodisp [] (by simp)
  · rw [h]
    refine ⟨by simp [Event.isDisplay], by simp, by simp, ?_⟩
    exact nodisp _ (by simp [Event.isDisplay])
  · rw [h]
    refine ⟨by simp [Event.isDisplay], by simp [ETDK_SUCCESS] at hrc ⊢; exact fun h0 => hrc h0.symm,
      by simp [he], ?_⟩
    exact nodisp _ (by simp [Event.isDisplay])
  · rw [h]
    refine ⟨by simp [Event.isDisplay], by simp, by simp [ETDK_SUCCESS], ?_⟩
    exact disp [Event.init ETDK_SUCCESS, Event.lock, Event.encrypt_device ETDK_SUCCESS]
      [Event.wipe, Event.unlock, Event.wipe, Event.cleanup] k0 v0
      (by simp [Event.isDisplay]) (by simp [Event.isDisplay]) (by simp) (by simp)
  · rw [h]
    refine ⟨by simp [Event.isDisplay], by simp, by simp [he], ?_⟩
    exact nodisp _ (by simp [Event.isDisplay])
  · rw [h]
    refine ⟨by simp [Event.isDisplay], by simp, by simp [he], ?_⟩
    exact nodisp _ (by simp [Event.isDisplay])
  · rw [h]
    refine ⟨by simp [Event.isDisplay], by simp; intro h0; exact absurd h0.symm hrc, by simp [he], ?_⟩
    exact nodisp _ (by simp [Event.isDisplay])
  · rw [h]
    refine ⟨by simp [Event.isDisplay], by simp, by simp [ETDK_SUCCESS], ?_⟩
    exact disp [Event.init ETDK_SUCCESS, Event.lock, Event.encrypt_file ETDK_SUCCESS,
        Event.remove_original 0, Event.rename_temp 0]
      [Event.wipe, Event.unlock, Event.wipe, Event.cleanup] k0 v0
      (by simp [Event.isDisplay]) (by simp [Event.isDisplay]) (by simp) (by simp)


theorem libc_remove_other (fails : Bool) (fs : FS) (p q : String) (h : q ≠ p) :
    (libc_remove fails fs p).2 q = fs q := by
  cases fails <;> cases hp : fs p <;> simp [libc_remove, hp, FS.put_other _ _ _ _ h]

theorem libc_remove_failed (fails : Bool) (fs : FS) (p : String)
    (h : (libc_remove fails fs p).1 ≠ 0) : (libc_remove fails fs p).2 = fs := by
  cases fails <;> cases hp : fs p <;> simp [libc_remove, hp] at h ⊢

theorem libc_remove_done (fails : Bool) (fs : FS) (p : String)
    (h : (libc_remove fails fs p).1 = 0) : (libc_remove fails fs p).2 p = none := by
  cases fails <;> cases hp : fs p <;> simp [libc_remove, hp, FS.put_same] at h ⊢

theorem libc_rename_failed (fails : Bool) (fs : FS) (a b : String)
    (h : (libc_rename fails fs a b).1 ≠ 0) : (libc_rename fails fs a b).2 = fs := by
  cases fails <;> cases hp : fs a <;> simp [libc_rename, hp] at h ⊢

/-- C6, as stated, fails: when `rename` fails after the encryption and the remove
of the original succeeded, `main` returns 1 and neither the original file nor
the temporary file exists any more. -/
theorem C6_rename_failure_loses_original :
    (main envRenameFails ["etdk", "hello.txt"]).map
        (fun r => (r.exit_code, r.fs "hello.txt", r.fs "hello.txt.tmp_encrypted")) =
      some (1, none, none) ∧
    envRenameFails.fs "hello.txt" = some { kind := NodeKind.regular, data := helloBytes } := by
  decide

/-- C6, amended: for a regular-file target whose path is not 511 characters long,
when `main` returns failure without the remove of the original having succeeded
(the run was aborted, key generation failed, the encryption failed or the remove
failed), the target path names what it named before; when `main` returns failure
after the remove succeeded (the rename failed), the target path names nothing. -/
theorem C6_original_kept_until_removed (env : MainEnv) (prog target : String)
    (hreg : platform_is_device (env.stat_fails target) env.fs (some target) = 0)
    (hlen : target.length ≠ 511) :
    ∃ r, main env [prog, target] = some r ∧
      (r.exit_code ≠ 0 → Event.remove_original 0 ∉ r.trace → r.fs target = env.fs target) ∧
      (r.exit_code ≠ 0 → Event.remove_original 0 ∈ r.trace → r.fs target = none) := by
  have htmp : target ≠ snprintf 512 (target ++ ".tmp_encrypted") :=
    fun h => snprintf_temp_ne target hlen h.symm
  simp only [main, hreg]
  split
  · exact ⟨_, rfl, by simp, by simp⟩
  split
  · exact ⟨_, rfl, by simp, by simp⟩
  split
  · exact ⟨_, rfl, by simp, by simp⟩
  obtain ⟨y, rc, c1, hi⟩ := crypto_init_some env.rng 0 env.ctx0
  rw [hi]
  simp only []
  split
  · exact ⟨_, rfl, by simp, by simp⟩
  rename_i hrc
  simp only [ne_eq, Decidable.not_not] at hrc
  subst hrc
  simp only [ne_eq, not_true_eq_false, if_false]
  obtain ⟨rc, fs1, hrun, hfs1⟩ := crypto_encrypt_file_total env.C env.file_faults env.fs
    (some target) (some (snprintf 512 (target ++ ".tmp_encrypted"))) (some y)
  have hkeep : fs1 target = env.fs target :=
    hfs1 target (fun h => htmp (Option.some.inj h).symm)
  rw [hrun]
  simp only []
  split
  · refine ⟨_, rfl, fun _ _ => ?_, fun _ hm => ?_⟩
    · rw [(main_fail_shape _ _ _ _ _).2.1, hkeep]
    · rw [(main_fail_shape _ _ _ _ _).2.2] at hm
      simp at hm
  split
  · rename_i h1
    refine ⟨_, rfl, fun _ _ => ?_, fun _ hm => ?_⟩
    · rw [(main_fail_shape _ _ _ _ _).2.1, libc_remove_other _ _ _ _ htmp,
        libc_remove_failed _ _ _ h1, hkeep]
    · rw [(main_fail_shape _ _ _ _ _).2.2] at hm
      simp at hm
      exact absurd hm.symm h1
  rename_i h1
  simp only [ne_eq, Decidable.not_not] at h1
  split
  · rename_i h2
    refine ⟨_, rfl, fun _ hm => ?_, fun _ _ => ?_⟩
    · rw [(main_fail_shape _ _ _ _ _).2.2, h1] at hm
      simp at hm
    · rw [(main_fail_shape _ _ _ _ _).2.1, libc_remove_other _ _ _ _ htmp,
        libc_rename_failed _ _ _ _ h2, libc_remove_done _ _ _ h1]
  · refine ⟨_, rfl, fun he => ?_, fun he => ?_⟩
    · exact absurd (main_finish_shape _ _ _ _ _).1 he
    · exact absurd (main_finish_shape _ _ _ _ _).1 he

/-- C6 amended, a concrete run: the encryption of `hello.txt` fails at the first
`EVP_EncryptUpdate`; `main` returns failure and `hello.txt` is untouched. -/
theorem C6_original_kept_until_removed_witness :
    ∃ r, main envUpdateFails ["etdk", "hello.txt"] = some r ∧
      (r.exit_code ≠ 0 → Event.remove_original 0 ∉ r.trace →
        r.fs "hello.txt" = envUpdateFails.fs "hello.txt") ∧
      (r.exit_code ≠ 0 → Event.remove_original 0 ∈ r.trace → r.fs "hello.txt" = none) :=
  C6_original_kept_until_removed envUpdateFails "etdk" "hello.txt" (by decide) (by decide)

/-! ## Destruction count, temporary file and target classification -/

/-- C11, as stated, fails: in the run in which nothing fails the wipe routine
runs twice, once called by `main` and once inside `crypto_cleanup`. -/
theorem C11_success_run_wipes_twice :
    (main envBase ["etdk", "hello.txt"]).map
        (fun r => (r.exit_code, r.trace.count Event.wipe, r.trace.drop 5)) =
      some (0, 2,
        [Event.display (List.range' 1 32) (List.range' 41 16), Event.wipe, Event.unlock,
          Event.wipe, Event.cleanup]) := by
  decide

/-- C11, amended: in every run of `main` in which `crypto_init` succeeded the wipe
routine runs before `main` returns, exactly once (inside `crypto_cleanup`) when
`main` returns failure and exactly twice (called by `main`, then inside
`crypto_cleanup`) when `main` returns success. -/
theorem C11_wipe_once_on_failure_twice_on_success (env : MainEnv) (argv : List String) :
    ∃ r, main env argv = some r ∧
      (Event.init ETDK_SUCCESS ∈ r.trace →
        (r.exit_code = 0 ∨ r.exit_code = 1) ∧
        (r.exit_code = 1 → r.trace.count Event.wipe = 1) ∧
        (r.exit_code = 0 → r.trace.count Event.wipe = 2)) := by
  obtain ⟨r, hr, hshape⟩ := main_shape env argv
  refine ⟨r, hr, ?_⟩
  rcases hshape with h | ⟨rc, hrc, he, h⟩ | ⟨rc, _, he, h⟩ | ⟨k0, v0, he, h⟩ |
    ⟨rc, _, he, h⟩ | ⟨rc, rc1, _, he, h⟩ | ⟨rc, rc1, _, he, h⟩ | ⟨k0, v0, he, h⟩
  · rw [h]; simp
  · rw [h]
    intro hm
    simp only [List.mem_singleton, Event.init.injEq] at hm
    exact absurd hm.symm hrc
  all_goals
    rw [h, he]
    intro _
    simp [List.count_cons]

/-- C13, the failing run: the first `EVP_EncryptUpdate` fails after the temporary
file was created.  `main` returns 1 without a `remove(temp_path)`, and the
temporary file is still there. -/
theorem C13_temp_file_left_after_failed_encryption :
    (main envUpdateFails ["etdk", "hello.txt"]).map
        (fun r => (r.exit_code, r.trace, r.fs "hello.txt.tmp_encrypted")) =
      some (1,
        [Event.init ETDK_SUCCESS, Event.lock, Event.encrypt_file ETDK_ERROR_CRYPTO,
          Event.unlock, Event.wipe, Event.cleanup],
        some { kind := NodeKind.regular, data := [] }) ∧
    envUpdateFails.fs "hello.txt.tmp_encrypted" = none := by
  decide

theorem platform_is_device_nonneg (stat_fails : Bool) (fs : FS) (path : Option String) :
    platform_is_device stat_fails fs path = 0 ∨ platform_is_device stat_fails fs path = 1 := by
  unfold platform_is_device
  split
  · exact Or.inl rfl
  · split
    · exact Or.inl rfl
    · split
      · exact Or.inr rfl
      · exact Or.inl rfl

/-- C14, the failing inputs: for a null path, for a path that names nothing and
for a path on which `stat` fails, `platform_is_device` returns 0, not -1; and a
run of `main` on a target that does not exist is not rejected by the check
`is_device < 0` but goes on to the prompt, generates a key and fails only when
`crypto_encrypt_file` cannot open the input. -/
theorem C14_platform_is_device_returns_zero_on_error :
    platform_is_device false fsHello none = 0 ∧
    platform_is_device false fsHello (some "missing.txt") = 0 ∧
    platform_is_device true fsHello (some "hello.txt") = 0 ∧
    (main envBase ["etdk", "missing.txt"]).map (fun r => (r.exit_code, r.trace)) =
      some (1,
        [Event.init ETDK_SUCCESS, Event.lock, Event.encrypt_file ETDK_ERROR_IO,
          Event.unlock, Event.wipe, Event.cleanup]) := by
  decide

/-! ## The paths `main` formats -/

/-- For a target path of at most 497 characters nothing is cut: the temporary path
is the target followed by `.tmp_encrypted` and the destination of the rename is
the target. -/
theorem snprintf_paths_short (target : String) (h : target.length ≤ 497) :
    snprintf 512 (target ++ ".tmp_encrypted") = target ++ ".tmp_encrypted" ∧
    snprintf 512 target = target := by
  have hl : target.length = target.data.length := rfl
  have h14 : (".tmp_encrypted" : String).data.length = 14 := by decide
  constructor
  · unfold snprintf
    rw [List.take_of_length_le]
    simp only [String.data_append, List.length_append, h14]
    omega
  · unfold snprintf
    rw [List.take_of_length_le (by omega)]

/-- For a target path of exactly 511 characters the suffix is cut off whole: the
temporary path is the target path itself. -/
theorem snprintf_temp_eq_target (target : String) (h : target.length = 511) :
    snprintf 512 (target ++ ".tmp_encrypted") = target := by
  have hl : target.data.length = 511 := h
  unfold snprintf
  rw [String.data_append, List.take_left' hl]

set_option maxRecDepth 1000000 in
/-- C15, the failing input: a target path of 511 characters.  The temporary path
that `main` formats is the target path itself, so `crypto_encrypt_file` opens
its own input for writing, cuts it to length zero and encrypts nothing: the
file ends up holding the padding block of the empty input, and the run of `main`
ends in failure with the file gone.  For a path of 512 characters the
destination of the rename is not the target path. -/
theorem C15_long_target_path_is_its_own_temp_path :
    longPath.length = 511 ∧
    snprintf 512 (longPath ++ ".tmp_encrypted") = longPath ∧
    (crypto_encrypt_file toyCipher noFileFaults fsLong (some longPath)
        (some (snprintf 512 (longPath ++ ".tmp_encrypted"))) (some ctxLive)).map
        (fun r => (r.1, r.2 longPath)) =
      some (ETDK_SUCCESS,
        some ⟨NodeKind.regular, cbc_encrypt_padded toyCipher ctxLive.key ctxLive.iv []⟩) ∧
    (main envLongPath ["etdk", longPath]).map (fun r => (r.exit_code, r.trace, r.fs longPath)) =
      some (1,
        [Event.init ETDK_SUCCESS, Event.lock, Event.encrypt_file ETDK_SUCCESS,
          Event.remove_original 0, Event.rename_temp (-1), Event.remove_temp (-1),
          Event.unlock, Event.wipe, Event.cleanup],
        none) ∧
    snprintf 512 (longPath ++ "c") ≠ longPath ++ "c" := by
  decide

/-! ## Failing I/O calls -/

theorem encrypt_file_loop_iteration (C : BlockCipher) (flt : FileFaults) (bufsz fuel i : Nat)
    (s s1 : FileState) (h : file_iteration C flt bufsz i s = some s1) :
    encrypt_file_loop C flt bufsz (fuel + 1) i s.st s.rest s.out =
      encrypt_file_loop C flt bufsz fuel (i + 1) s1.st s1.rest s1.out := by
  rw [encrypt_file_loop]
  unfold file_iteration at h
  simp only [] at h ⊢
  split at h
  · exact absurd h (by simp)
  · rename_i h0
    split at h
    · exact absurd h (by simp)
    · rename_i hu
      simp only [Option.some.injEq] at h
      subst h
      simp only [h0, hu, if_false, Bool.false_eq_true]

theorem encrypt_file_loop_state_at (C : BlockCipher) (flt : FileFaults) (bufsz : Nat)
    (s0 : FileState) :
    ∀ (k : Nat) (s : FileState), file_state_at C flt bufsz s0 k = some s →
      ∀ fuel, encrypt_file_loop C flt bufsz (k + fuel) 0 s0.st s0.rest s0.out =
        encrypt_file_loop C flt bufsz fuel k s.st s.rest s.out := by
  intro k
  induction k with
  | zero =>
    intro s h fuel
    simp only [file_state_at, Option.some.injEq] at h
    subst h
    rw [Nat.zero_add]
  | succ k ih =>
    intro s h fuel
    simp only [file_state_at] at h
    cases hk : file_state_at C flt bufsz s0 k with
    | none => rw [hk] at h; exact absurd h (by simp)
    | some sk =>
      rw [hk] at h
      simp only [Option.some_bind] at h
      have e : k + 1 + fuel = k + (fuel + 1) := by omega
      rw [e, ih sk hk (fuel + 1), encrypt_file_loop_iteration C flt bufsz fuel k sk s h]

theorem file_state_at_prefix (C : BlockCipher) (flt : FileFaults) (bufsz : Nat)
    (s0 : FileState) :
    ∀ (k : Nat) (s : FileState), file_state_at C flt bufsz s0 k = some s →
      ∀ j, j ≤ k → ∃ sj, file_state_at C flt bufsz s0 j = some sj := by
  intro k
  induction k with
  | zero =>
    intro s h j hj
    have : j = 0 := by omega
    subst this
    exact ⟨s, h⟩
  | succ k ih =>
    intro s h j hj
    rcases Nat.lt_or_ge j (k + 1) with hlt | hge
    · cases hk : file_state_at C flt bufsz s0 k with
      | none => simp [file_state_at, hk] at h
      | some sk => exact ih sk hk j (by omega)
    · have : j = k + 1 := by omega
      subst this
      exact ⟨s, h⟩


theorem file_state_at_lt_fuel (C : BlockCipher) (flt : FileFaults) (bufsz : Nat)
    (s0 : FileState) (k : Nat) (s : FileState) (h : file_state_at C flt bufsz s0 k = some s)
    (F : Nat) (e : FileLoopEnd)
    (hrun : encrypt_file_loop C flt bufsz F 0 s0.st s0.rest s0.out = some e) : k < F := by
  by_contra hge
  obtain ⟨sF, hF⟩ := file_state_at_prefix C flt bufsz s0 k s h F (by omega)
  have h0 := encrypt_file_loop_state_at C flt bufsz s0 F sF hF 0
  rw [Nat.add_zero, hrun] at h0
  simp [encrypt_file_loop] at h0

/-- In `crypto_encrypt_file`, once the files are open and the cipher is set up, an
`fread` that delivers no byte ends the loop, whether it met the end of the input
or an error; if the final cipher call then succeeds the function returns
`ETDK_SUCCESS`. -/
theorem crypto_encrypt_file_read_nothing (C : BlockCipher) (flt : FileFaults) (fs : FS)
    (inp outp : String) (x : crypto_context_t) (node : Node) (hin : fs inp = some node)
    (hne : inp ≠ outp) (ho1 : flt.open_input = false) (ho2 : flt.open_output = false)
    (hc : flt.ctx_new = false) (hi : flt.enc_init = false) (hfin : flt.final = false)
    (k : Nat) (s : FileState)
    (hk : file_state_at C flt 4096 ⟨EVP_EncryptInit_ex x.key x.iv, node.data, []⟩ k = some s)
    (hread : fread (flt.read k) 4096 s.rest = []) :
    ∃ fs1, crypto_encrypt_file C flt fs (some inp) (some outp) (some x) =
      some (ETDK_SUCCESS, fs1) := by
  obtain ⟨e, he⟩ := encrypt_file_loop_total C flt 4096 (node.data.length + 1) 0
    (EVP_EncryptInit_ex x.key x.iv) node.data [] (by omega)
  have hlt := file_state_at_lt_fuel C flt 4096 ⟨EVP_EncryptInit_ex x.key x.iv, node.data, []⟩
    k s hk (node.data.length + 1) e he
  obtain ⟨f, hf⟩ : ∃ f, node.data.length + 1 = k + (f + 1) :=
    ⟨node.data.length - k, by omega⟩
  have hloop := encrypt_file_loop_state_at C flt 4096
    ⟨EVP_EncryptInit_ex x.key x.iv, node.data, []⟩ k s hk (f + 1)
  have hstep : encrypt_file_loop C flt 4096 (f + 1) k s.st s.rest s.out =
      some { ok := true, st := s.st, out := s.out, calls := k } := by
    rw [encrypt_file_loop]
    simp only [hread, List.length_nil, if_true]
  rw [← hf, hstep] at hloop
  simp only [] at hloop
  simp only [crypto_encrypt_file, ho1, ho2, hc, hi, hfin, hin, FS.put_other _ _ _ _ hne,
    Option.map_some', Option.getD_some, hloop, Bool.false_eq_true, if_false, Bool.true_eq_false]
  exact ⟨_, rfl⟩

theorem encrypt_device_loop_iteration (C : BlockCipher) (flt : DeviceFaults)
    (chunk fuel i : Nat) (s s1 : DeviceState) (h : device_iteration C flt chunk i s = some s1) :
    encrypt_device_loop C flt chunk (fuel + 1) i s =
      encrypt_device_loop C flt chunk fuel (i + 1) s1 := by
  rw [encrypt_device_loop]
  unfold device_iteration at h
  simp only [] at h ⊢
  split at h
  · exact absurd h (by simp)
  · rename_i h0
    split at h
    · exact absurd h (by simp)
    · rename_i hu
      split at h
      · exact absurd h (by simp)
      · rename_i hw
        simp only [Option.some.injEq] at h
        subst h
        simp only [h0, hu, hw, if_false, Bool.false_eq_true]

theorem encrypt_device_loop_state_at (C : BlockCipher) (flt : DeviceFaults) (chunk : Nat)
    (s0 : DeviceState) :
    ∀ (k : Nat) (s : DeviceState), device_state_at C flt chunk s0 k = some s →
      ∀ fuel, encrypt_device_loop C flt chunk (k + fuel) 0 s0 =
        encrypt_device_loop C flt chunk fuel k s := by
  intro k
  induction k with
  | zero =>
    intro s h fuel
    simp only [device_state_at, Option.some.injEq] at h
    subst h
    rw [Nat.zero_add]
  | succ k ih =>
    intro s h fuel
    simp only [device_state_at] at h
    cases hk : device_state_at C flt chunk s0 k with
    | none => rw [hk] at h; exact absurd h (by simp)
    | some sk =>
      rw [hk] at h
      simp only [Option.some_bind] at h
      have e : k + 1 + fuel = k + (fuel + 1) := by omega
      rw [e, ih sk hk (fuel + 1), encrypt_device_loop_iteration C flt chunk fuel k sk s h]

theorem device_state_at_prefix (C : BlockCipher) (flt : DeviceFaults) (chunk : Nat)
    (s0 : DeviceState) :
    ∀ (k : Nat) (s : DeviceState), device_state_at C flt chunk s0 k = some s →
      ∀ j, j ≤ k → ∃ sj, device_state_at C flt chunk s0 j = some sj := by
  intro k
  induction k with
  | zero =>
    intro s h j hj
    have : j = 0 := by omega
    subst this
    exact ⟨s, h⟩
  | succ k ih =>
    intro s h j hj
    rcases Nat.lt_or_ge j (k + 1) with hlt | hge
    · cases hk : device_state_at C flt chunk s0 k with
      | none => simp [device_state_at, hk] at h
      | some sk => exact ih sk hk j (by omega)
    · have : j = k + 1 := by omega
      subst this
      exact ⟨s, h⟩

theorem device_state_at_lt_fuel (C : BlockCipher) (flt : DeviceFaults) (chunk : Nat)
    (s0 : DeviceState) (k : Nat) (s : DeviceState)
    (h : device_state_at C flt chunk s0 k = some s) (F : Nat) (r : Int × DeviceState)
    (hrun : encrypt_device_loop C flt chunk F 0 s0 = some r) : k < F := by
  by_contra hge
  obtain ⟨sF, hF⟩ := device_state_at_prefix C flt chunk s0 k s h F (by omega)
  have h0 := encrypt_device_loop_state_at C flt chunk s0 F sF hF 0
  rw [Nat.add_zero, hrun] at h0
  simp [encrypt_device_loop] at h0


/-- Once the device is open, its size known and buffers and cipher set up,
`crypto_encrypt_device` returns what its loop returns. -/
theorem crypto_encrypt_device_opened (C : BlockCipher) (flt : DeviceFaults) (fs : FS)
    (p : String) (x : crypto_context_t) (node : Node) (hdev : fs p = some node)
    (ho : flt.open_device = false) (hq : flt.size_query = false) (hc : flt.ctx_new = false)
    (hi : flt.enc_init = false) (hm : flt.malloc = false) :
    crypto_encrypt_device C flt fs (some p) (some x) =
      (encrypt_device_loop C flt 1048576 (16 * node.data.length + 16) 0
          ⟨node.data, 0, EVP_EncryptInit_ex x.key x.iv, 0, []⟩).map
        (fun r => ⟨r.1, fs.put p (some ⟨node.kind, r.2.data⟩), r.2.processed, r.2.log⟩) := by
  simp only [crypto_encrypt_device, ho, hq, hc, hi, hm, hdev, platform_get_device_size,
    Bool.false_eq_true, if_false, ne_eq, not_true_eq_false, Nat.reduceMul]
  cases encrypt_device_loop C flt 1048576 (16 * node.data.length + 16) 0
    ⟨node.data, 0, EVP_EncryptInit_ex x.key x.iv, 0, []⟩ with
  | none => rfl
  | some r => rfl

/-- How `crypto_encrypt_device` leaves its loop.  In an iteration that the loop
reaches: a read that delivers no byte (end of the device or a read error) ends
the function with `ETDK_SUCCESS`; a failing `EVP_EncryptUpdate` ends it with
`ETDK_ERROR_CRYPTO`; a short `fwrite` ends it with `ETDK_ERROR_IO`; in every
other case the loop goes round again, whatever `fseek` returned. -/
theorem crypto_encrypt_device_exits (C : BlockCipher) (flt : DeviceFaults) (fs : FS)
    (p : String) (x : crypto_context_t) (node : Node) (hdev : fs p = some node)
    (ho : flt.open_device = false) (hq : flt.size_query = false) (hc : flt.ctx_new = false)
    (hi : flt.enc_init = false) (hm : flt.malloc = false) (k : Nat) (s : DeviceState)
    (hk : device_state_at C flt 1048576
      ⟨node.data, 0, EVP_EncryptInit_ex x.key x.iv, 0, []⟩ k = some s) :
    (fread (flt.read k) 1048576 (s.data.drop s.pos) = [] →
      ∃ run, crypto_encrypt_device C flt fs (some p) (some x) = some run ∧
        run.rc = ETDK_SUCCESS) ∧
    (fread (flt.read k) 1048576 (s.data.drop s.pos) ≠ [] → flt.update k = true →
      ∃ run, crypto_encrypt_device C flt fs (some p) (some x) = some run ∧
        run.rc = ETDK_ERROR_CRYPTO) ∧
    (fread (flt.read k) 1048576 (s.data.drop s.pos) ≠ [] → flt.update k = false →
      (fwrite (flt.write k)
          (EVP_EncryptUpdate C s.st (fread (flt.read k) 1048576 (s.data.drop s.pos))).2).length ≠
        (EVP_EncryptUpdate C s.st (fread (flt.read k) 1048576 (s.data.drop s.pos))).2.length →
      ∃ run, crypto_encrypt_device C flt fs (some p) (some x) = some run ∧
        run.rc = ETDK_ERROR_IO) ∧
    (fread (flt.read k) 1048576 (s.data.drop s.pos) ≠ [] → flt.update k = false →
      (fwrite (flt.write k)
          (EVP_EncryptUpdate C s.st (fread (flt.read k) 1048576 (s.data.drop s.pos))).2).length =
        (EVP_EncryptUpdate C s.st (fread (flt.read k) 1048576 (s.data.drop s.pos))).2.length →
      ∃ s1, device_state_at C flt 1048576
        ⟨node.data, 0, EVP_EncryptInit_ex x.key x.iv, 0, []⟩ (k + 1) = some s1) := by
  obtain ⟨r, hr⟩ := encrypt_device_loop_total C flt 1048576 (16 * node.data.length + 16) 0
    ⟨node.data, 0, EVP_EncryptInit_ex x.key x.iv, 0, []⟩ (by simp [EVP_EncryptInit_ex])
  have hlt := device_state_at_lt_fuel C flt 1048576 _ k s hk _ r hr
  obtain ⟨f, hf⟩ : ∃ f, 16 * node.data.length + 16 = k + (f + 1) :=
    ⟨16 * node.data.length + 16 - k - 1, by omega⟩
  have hloop := encrypt_device_loop_state_at C flt 1048576 _ k s hk (f + 1)
  rw [← hf] at hloop
  have hopen := crypto_encrypt_device_opened C flt fs p x node hdev ho hq hc hi hm
  rw [hloop] at hopen
  have hlen : ∀ l : List Nat, l ≠ [] → l.length ≠ 0 := fun l hl h0 =>
    hl (List.eq_nil_of_length_eq_zero h0)
  refine ⟨fun hread => ?_, fun hread hu => ?_, fun hread hu hw => ?_, fun hread hu hw => ?_⟩
  · rw [encrypt_device_loop] at hopen
    simp only [hread, List.length_nil, if_true, Option.map_some'] at hopen
    exact ⟨_, hopen, rfl⟩
  · rw [encrypt_device_loop] at hopen
    simp only [hlen _ hread, hu, if_false, if_true, Option.map_some'] at hopen
    exact ⟨_, hopen, rfl⟩
  · rw [encrypt_device_loop] at hopen
    simp only [hlen _ hread, hu, hw, if_false, if_true, Option.map_some', ne_eq,
      not_false_eq_true, Bool.false_eq_true] at hopen
    exact ⟨_, hopen, rfl⟩
  · simp only [device_state_at, hk, Option.some_bind, device_iteration, hlen _ hread, hu, hw,
      if_false, ne_eq, not_true_eq_false, Bool.false_eq_true]
    exact ⟨_, rfl⟩


theorem file_state_at_succ (C : BlockCipher) (flt : FileFaults) (bufsz k : Nat)
    (s0 s : FileState) (hk : file_state_at C flt bufsz s0 k = some s)
    (hread : fread (flt.read k) bufsz s.rest ≠ []) (hu : flt.update k = false) :
    ∃ s1, file_state_at C flt bufsz s0 (k + 1) = some s1 := by
  have hlen : (fread (flt.read k) bufsz s.rest).length ≠ 0 := fun h0 =>
    hread (List.eq_nil_of_length_eq_zero h0)
  simp only [file_state_at, hk, Option.some_bind, file_iteration, hlen, hu, if_false,
    Bool.false_eq_true]
  exact ⟨_, rfl⟩

theorem crypto_encrypt_file_open_input_fails (C : BlockCipher) (flt : FileFaults) (fs : FS)
    (inp outp : String) (x : crypto_context_t) (h : flt.open_input = true ∨ fs inp = none) :
    crypto_encrypt_file C flt fs (some inp) (some outp) (some x) = some ( ETDK_ERROR_IO, fs) := by
  rcases h with h | h
  · simp [crypto_encrypt_file, h]
  · cases hf : flt.open_input <;> simp [crypto_encrypt_file, h, hf]

theorem crypto_encrypt_file_open_output_fails (C : BlockCipher) (flt : FileFaults) (fs : FS)
    (inp outp : String) (x : crypto_context_t) (node : Node) (hin : fs inp = some node)
    (h1 : flt.open_input = false) (h2 : flt.open_output = true) :
    crypto_encrypt_file C flt fs (some inp) (some outp) (some x) = some ( ETDK_ERROR_IO, fs) := by
  simp [crypto_encrypt_file, hin, h1, h2]

theorem crypto_encrypt_device_open_fails (C : BlockCipher) (flt : DeviceFaults) (fs : FS)
    (p : String) (x : crypto_context_t) (h : flt.open_device = true ∨ fs p = none) :
    ∃ run, crypto_encrypt_device C flt fs (some p) (some x) = some run ∧
      run.rc = ETDK_ERROR_IO ∧ run.fs = fs := by
  refine ⟨⟨ ETDK_ERROR_IO, fs, 0, []⟩, ?_, rfl, rfl⟩
  rcases h with h | h
  · simp [crypto_encrypt_device, h]
  · cases hf : flt.open_device <;> simp [crypto_encrypt_device, h, hf]

theorem crypto_encrypt_device_size_query_fails (C : BlockCipher) (flt : DeviceFaults) (fs : FS)
    (p : String) (x : crypto_context_t) (node : Node) (hdev : fs p = some node)
    (h1 : flt.open_device = false) (h2 : flt.size_query = true) :
    ∃ run, crypto_encrypt_device C flt fs (some p) (some x) = some run ∧
      run.rc = ETDK_ERROR_IO ∧ run.fs = fs := by
  refine ⟨⟨ ETDK_ERROR_IO, fs, 0, []⟩, ?_, rfl, rfl⟩
  simp [crypto_encrypt_device, hdev, h1, h2, platform_get_device_size, ETDK_SUCCESS,
    ETDK_ERROR_IO]

/-- C12, the failing inputs.  On the five-byte file `hello.txt`: with a read error
on the first `fread`, `crypto_encrypt_file` returns `ETDK_SUCCESS` and the output
holds the ciphertext of the empty input; with every `fwrite` failing it returns
`ETDK_SUCCESS` and the output is empty.  On the 64-byte device: with a read
error on the first `fread`, `crypto_encrypt_device` returns `ETDK_SUCCESS` and
the device is as it was.  On the 64-byte image `disk.img`: with the `fseek`
failing, `crypto_encrypt_device` returns `ETDK_SUCCESS`, having written the
ciphertext at offset 64 behind the plaintext, which is still there.  The one
check the loops have, the `fwrite` of `crypto_encrypt_device`, gives
`ETDK_ERROR_IO` on a short write. -/
theorem C12_read_write_seek_errors_return_success :
    (crypto_encrypt_file toyCipher fileReadError fsHello (some "hello.txt")
        (some "hello.txt.tmp_encrypted") (some ctxLive)).map
        (fun r => (r.1, r.2 "hello.txt.tmp_encrypted")) =
      some (ETDK_SUCCESS,
        some ⟨NodeKind.regular, cbc_encrypt_padded toyCipher ctxLive.key ctxLive.iv []⟩) ∧
    (crypto_encrypt_file toyCipher fileWriteError fsHello (some "hello.txt")
        (some "hello.txt.tmp_encrypted") (some ctxLive)).map
        (fun r => (r.1, r.2 "hello.txt.tmp_encrypted")) =
      some (ETDK_SUCCESS, some ⟨NodeKind.regular, []⟩) ∧
    (crypto_encrypt_device toyCipher deviceReadError fsDevice (some "/dev/sdb")
        (some ctxLive)).map (fun r => (r.rc, r.fs "/dev/sdb")) =
      some (ETDK_SUCCESS, fsDevice "/dev/sdb") ∧
    (crypto_encrypt_device toyCipher deviceSeekFail fsImage64 (some "disk.img")
        (some ctxLive)).map (fun r => (r.rc, r.log, r.fs "disk.img")) =
      some (ETDK_SUCCESS, [⟨0, 64, 64, 64⟩],
        some ⟨NodeKind.regular,
          devData ++ (cbc_encrypt toyCipher ctxLive.key 4 ctxLive.iv devData).1⟩) ∧
    (crypto_encrypt_device toyCipher deviceShortWrite fsDevice (some "/dev/sdb")
        (some ctxLive)).map (fun r => r.rc) = some ( ETDK_ERROR_IO) := by
  decide

end Etdk
